import Mathlib

/-!
# Licor-App: order lifecycle, stock ledger and pack optimizer

A shallow embedding of `src/context/ProductContext.jsx` (stock ledger, catalog
lookups) and `src/context/OrderContext.jsx` (order engine, pack optimizer).

Modelling conventions.

* React state is explicit: the order list and the inventory are the fields of `State`,
  and the catalog (`Catalog`) is a read-only environment. A call of the order engine runs
  inside the closure of one render, so what it reads (`pendingOrders`, `inventory`) is
  the state it starts in, for the whole call, also after an `await`. A ledger call
  (`addStock`, `deductStock`) therefore computes its new total from the inventory of
  that render and hands React the update `prev => ({ ...prev, [key]: newTotal })`; the
  updates of one engine call are applied one after another to the current inventory.
  The next engine call runs in a later render and starts from the state the previous
  one left.
* A JavaScript object used as a map from string keys to numbers is a total
  function `String → Int`; every read in the source has the form `m[key] || 0`,
  so an absent key and a stored `0` are the same observation.
* Numbers are exact integers (`Int`): unit counts, quantities, stock and prices
  (prices in the smallest currency unit).
* A field that may be absent is an `Option`, `none` being the absent field
  (`undefined`). A slot entry is a product name or `none`: in the slots of a `Libre`
  item `none` is `null`; in the slots of any other item it is `null` or the hole that a
  write past the end leaves, which no operation tells apart there. The content passed to
  `updateOrderItemSlot` is a product name or `null` (`none`).
* `Date.now()`, `Math.random()` and the signed-in user are parameters.
-/

namespace LicorApp

/-! ## JavaScript helpers -/

/-- JavaScript truthiness of a possibly absent string: present and not empty. -/
def truthy : Option String → Bool
  | some s => s != ""
  | none => false

/-- Text that a template literal prints for a string that may be absent (`undefined`). -/
def tpl : Option String → String
  | some s => s
  | none => "undefined"

/-- The expression `a || b` on possibly absent strings, `b` being a string. -/
def orElseStr (a : Option String) (b : String) : String :=
  match a with
  | some s => if s != "" then s else b
  | none => b

/-- The expression `q || 1` on a possibly absent number. -/
def orOne : Option Int → Int
  | some q => if q = 0 then 1 else q
  | none => 1

/-- The expression `p || 0` on a possibly absent number. -/
def orZero : Option Int → Int
  | some p => p
  | none => 0

/-- Whether the character list `pat` starts the character list `l`. -/
def startsWith : List Char → List Char → Bool
  | _, [] => true
  | [], _ :: _ => false
  | a :: l, b :: pat => a == b && startsWith l pat

/-- Whether `pat` occurs somewhere inside `l`. -/
def containsChars : List Char → List Char → Bool
  | [], pat => startsWith [] pat
  | a :: l, pat => startsWith (a :: l) pat || containsChars l pat

/-- The test `s && s.toLowerCase().includes(pat)`. -/
def includesLower (s pat : String) : Bool :=
  s != "" && containsChars (s.data.map Char.toLower) pat.data

/-- `[...new Set(l)]`: duplicates removed, the first occurrence kept. -/
def uniq : List String → List String
  | [] => []
  | a :: l => a :: (uniq l).filter (fun b => b != a)

/-! ## Catalog and stock ledger (`ProductContext.jsx`) -/

/-- One entry of `rawEmissions`: `{id, name, units}`. -/
structure RawEmission where
  name : String
  units : Int
deriving DecidableEq

/-- The read-only catalog state of `ProductProvider`. -/
structure Catalog where
  /-- `conversions[key]`, `0` when the key is absent. -/
  conversions : String → Int
  rawEmissions : List RawEmission
  emissionOptions : List String
  /-- `prices[key]`, `0` when the key is absent. -/
  prices : String → Int
  /-- `exchangeRates.bcv || 0`. -/
  bcv : Int

/-- The `inventory` object: key `product_subtype` to on-hand units. -/
abbrev Inventory := String → Int

/-- The key `${beer}_${subtype}`. -/
def invKey (beer subtype : String) : String := beer ++ "_" ++ subtype

/-- Source: `getPrice(beer, emission, subtype, mode)`. -/
def getPrice (c : Catalog) (beer : String) (emission : Option String) (subtype : String)
    (mode : String) : Int :=
  let suffix := if mode = "local" then "_local" else ""
  let key := beer ++ "_" ++ tpl emission ++ "_" ++ subtype ++ suffix
  c.prices key

/-- Source: `getBsPrice(beer, emission, subtype, mode)`. -/
def getBsPrice (c : Catalog) (beer : String) (emission : Option String) (subtype : String)
    (mode : String) : Int :=
  let usd := getPrice c beer emission subtype mode
  usd * c.bcv

/-- The value `dbEmission && dbEmission.units` of `getUnitsPerEmission`, where
`dbEmission = rawEmissions.find(e => e.name === emission)`; `0` when it is falsy. -/
def dbEmissionUnits (c : Catalog) (emission : Option String) : Int :=
  match c.rawEmissions.find? (fun e => some e.name == emission) with
  | some e => e.units
  | none => 0

/-- Source: `getUnitsPerEmission(emission, subtype)`. -/
def getUnitsPerEmission (c : Catalog) (emission : Option String) (subtype : String) : Int :=
  if !truthy emission || emission == some "Unidad" then 1
  else if emission == some "Libre" then 1
  else
    let conversionKey := tpl emission ++ "_" ++ subtype
    if c.conversions conversionKey ≠ 0 then c.conversions conversionKey
    else
      let dbUnits := dbEmissionUnits c emission
      if dbUnits ≠ 0 then dbUnits
      else if emission == some "Caja" then
        if includesLower subtype "lata" then 24
        else if includesLower subtype "tercio" then 36
        else 12
      else 1

/-- Source: `addStock(beer, emission, subtype, quantity)`, called in a render whose
inventory is `inventory`: the new total is computed from `inventory`, and the update
`setInventory(prev => ({ ...prev, [key]: newTotal }))` writes it into the current
inventory `prev`. -/
def addStock (c : Catalog) (inventory : Inventory) (beer : String) (emission : Option String)
    (subtype : String) (quantity : Int) (prev : Inventory) : Inventory :=
  let units := quantity * getUnitsPerEmission c emission subtype
  let key := invKey beer subtype
  let currentTotal := inventory key
  let newTotal := currentTotal + units
  fun k => if k = key then newTotal else prev k

/-- Source: `deductStock(beer, emission, subtype, quantity)`, called in a render whose
inventory is `inventory`: the new total is computed from `inventory`, and the update
`setInventory(prev => ({ ...prev, [key]: newTotal }))` writes it into the current
inventory `prev`. -/
def deductStock (c : Catalog) (inventory : Inventory) (beer : String)
    (emission : Option String) (subtype : String) (quantity : Int) (prev : Inventory) :
    Inventory :=
  let units := quantity * getUnitsPerEmission c emission subtype
  let key := invKey beer subtype
  let currentTotal := inventory key
  let newTotal := max 0 (currentTotal - units)
  fun k => if k = key then newTotal else prev k

/-- Source: `checkStock(beer, emission, subtype, quantity)`. -/
def checkStock (c : Catalog) (inv : Inventory) (beer : String) (emission : Option String)
    (subtype : String) (quantity : Int) : Bool :=
  let key := invKey beer subtype
  let available := inv key
  let required := quantity * getUnitsPerEmission c emission subtype
  decide (available ≥ required)

/-! ## Orders (`OrderContext.jsx`) -/

/-- An order item; the fields are those the order engine reads or writes. -/
structure Item where
  id : String
  name : String
  beerType : Option String
  baseBeer : Option String
  beerVariety : String
  emission : Option String
  subtype : String
  quantity : Option Int
  slots : Option (List (Option String))
  /-- `Object.entries(item.composition)` when the item carries a composition. -/
  composition : Option (List (String × Int))
  unitPriceBs : Option Int
  unitPriceUsd : Option Int
  totalPriceBs : Option Int
  totalPriceUsd : Option Int
  type : Option String
  addedAt : Option Nat
deriving DecidableEq

/-- An order (ticket); `payments` is always the empty list and is left out. -/
structure Order where
  id : String
  ticketNumber : Nat
  customerName : String
  status : String
  type : String
  paymentMethod : Option String
  reference : String
  createdBy : String
  createdAt : Nat
  closedAt : Option Nat
  items : List Item
  totalAmountBs : Option Int
  totalAmountUsd : Option Int
deriving DecidableEq

/-- The mutable state the order engine works on: `pendingOrders` and `inventory`. -/
structure State where
  orders : List Order
  inventory : Inventory

/-- The expression `item.beerType || item.name`. -/
def beerNameOf (item : Item) : String := orElseStr item.beerType item.name

/-- The loop `for (const slotBeer of slots) if (slotBeer) await addStock(slotBeer, 'Unidad', subtype, 1)`,
run in a render whose inventory is `inventory`, on the current inventory `prev`. -/
def restoreSlots (c : Catalog) (inventory : Inventory) (subtype : String)
    (slots : List (Option String)) (prev : Inventory) : Inventory :=
  slots.foldl (fun acc slotBeer =>
    if truthy slotBeer then addStock c inventory (tpl slotBeer) (some "Unidad") subtype 1 acc
    else acc) prev

/-- The loop `for (const slotBeer of slots) if (slotBeer) await deductStock(slotBeer, 'Unidad', subtype, 1)`,
run in a render whose inventory is `inventory`, on the current inventory `prev`. -/
def deductSlots (c : Catalog) (inventory : Inventory) (subtype : String)
    (slots : List (Option String)) (prev : Inventory) : Inventory :=
  slots.foldl (fun acc slotBeer =>
    if truthy slotBeer then deductStock c inventory (tpl slotBeer) (some "Unidad") subtype 1 acc
    else acc) prev

/-- The expression `item.slots && item.slots.length > 0 ? item.slots : fallback`. -/
def slotsOr (item : Item) (fallback : List (Option String)) : List (Option String) :=
  match item.slots with
  | some (a :: l) => a :: l
  | _ => fallback

/-- The session item that `createOrder` injects into an empty `Local` order. -/
def consumoItem (now : Nat) : Item :=
  { id := "consumption-" ++ toString now
    name := "Consumo"
    beerType := none
    baseBeer := none
    beerVariety := "Variado"
    emission := some "Libre"
    subtype := "Botella"
    quantity := some 1
    slots := some []
    composition := none
    unitPriceBs := none
    unitPriceUsd := none
    totalPriceBs := none
    totalPriceUsd := none
    type := none
    addedAt := some now }

/-- Source: `createOrder(customerName, items, type, paymentMethod, reference)`; `now` is
`Date.now()`, `ticket` the drawn ticket number, `user` the name of the signed-in user. -/
def createOrder (now ticket : Nat) (user : String) (s : State) (customerName : String)
    (items : List Item) (type : String) (paymentMethod : Option String)
    (reference : String) : Order × State :=
  let mapped := items.map (fun item =>
    { item with
      addedAt := some now
      slots := some (if item.beerVariety = "Variado"
        then [some (orElseStr item.baseBeer (orElseStr item.beerType item.name))] else []) })
  let initialItems :=
    if mapped.length = 0 ∧ type = "Local" then [consumoItem now] else mapped
  let newOrder : Order :=
    { id := toString now
      ticketNumber := ticket
      customerName := if customerName != "" then customerName else "Cliente"
      status := "OPEN"
      type := type
      paymentMethod := paymentMethod
      reference := reference
      createdBy := user
      createdAt := now
      closedAt := none
      items := initialItems
      totalAmountBs := none
      totalAmountUsd := none }
  (newOrder, { s with orders := newOrder :: s.orders })

/-- Source: `addItemToOrder(orderId, item)`. -/
def addItemToOrder (c : Catalog) (now : Nat) (s : State) (orderId : String)
    (item : Item) : State :=
  match s.orders.find? (fun o => o.id == orderId) with
  | none => s
  | some order =>
    let quantity := orOne item.quantity
    let beerName := beerNameOf item
    let unitsToCheck : Int := if item.beerVariety = "Variado" then 1 else quantity
    let emissionToCheck := if item.beerVariety = "Variado" then some "Unidad" else item.emission
    let canFulfill := checkStock c s.inventory beerName emissionToCheck item.subtype unitsToCheck
    if !canFulfill then s
    else
      let itemToAdd : Item := { item with quantity := some quantity, addedAt := some now }
      let inv :=
        if order.type = "Local" ∧ item.beerVariety = "Variado"
        then deductStock c s.inventory beerName (some "Unidad") item.subtype 1 s.inventory
        else s.inventory
      let itemToAdd : Item :=
        if order.type = "Local" then
          if item.beerVariety = "Variado" then { itemToAdd with slots := some [some beerName] }
          else { itemToAdd with slots := some [] }
        else itemToAdd
      { orders := s.orders.map (fun o =>
          if o.id = orderId then { o with items := o.items ++ [itemToAdd] } else o)
        inventory := inv }

/-- Source: `removeItemFromOrder(orderId, itemId)`. -/
def removeItemFromOrder (c : Catalog) (s : State) (orderId itemId : String) : State :=
  match s.orders.find? (fun o => o.id == orderId) with
  | none => s
  | some order =>
    match order.items.find? (fun i => i.id == itemId) with
    | none => s
    | some item =>
      let beerName := beerNameOf item
      let inv :=
        if order.type = "Local"
        then restoreSlots c s.inventory item.subtype (slotsOr item [some beerName]) s.inventory
        else s.inventory
      { orders := s.orders.map (fun o =>
          if o.id = orderId then { o with items := o.items.filter (fun i => i.id != itemId) }
          else o)
        inventory := inv }

/-- Source: `cancelOrder(orderId)`. -/
def cancelOrder (c : Catalog) (s : State) (orderId : String) : State :=
  match s.orders.find? (fun o => o.id == orderId) with
  | none => s
  | some order =>
    let inv :=
      if order.type = "Local" then
        order.items.foldl (fun acc item =>
          let beerName := beerNameOf item
          let slotsToReturn :=
            slotsOr item (if item.beerVariety = "Variado" then [some beerName] else [])
          restoreSlots c s.inventory item.subtype slotsToReturn acc) s.inventory
      else s.inventory
    { orders := s.orders.filter (fun o => o.id != orderId), inventory := inv }

/-! ## Pack optimizer (`calculateOrderTotal`) -/

/-- The result `{ totalBs, totalUsd, details, optimizedItems }`. -/
structure Totals where
  totalBs : Int
  totalUsd : Int
  details : List String
  optimizedItems : List Item

/-- The assignment `map[key] = (map[key] || 0) + 1` on an object whose keys are kept
in insertion order (a consumption key contains `_`, so it is never an array index). -/
def bump : List (String × Int) → String → List (String × Int)
  | [], key => [(key, 1)]
  | (k, v) :: rest, key => if k = key then (k, v + 1) :: rest else (k, v) :: bump rest key

/-- The inner loop of step 1: one `localConsumptionMap` increment per truthy slot. -/
def countSlots (m : List (String × Int)) (item : Item) : List (String × Int) :=
  (item.slots.getD []).foldl (fun acc slotBeer =>
    if truthy slotBeer then bump acc (tpl slotBeer ++ "_" ++ item.subtype) else acc) m

/-- The split of a consumption key at `key.lastIndexOf('_')` into
`(key.substring(0, i), key.substring(i + 1))`. -/
def splitKey (key : String) : String × String :=
  let r := key.data.reverse
  let suf := r.takeWhile (fun ch => ch != '_')
  let pre := (r.dropWhile (fun ch => ch != '_')).drop 1
  (String.mk pre.reverse, String.mk suf.reverse)

/-- A candidate pack `{ name, units, priceBs, priceUsd }`. -/
structure Candidate where
  name : String
  units : Int
  priceBs : Int
  priceUsd : Int
deriving DecidableEq

/-- The list `allEmissionNames` of the optimizer for one subtype. -/
def allEmissionNames (c : Catalog) (subtype : String) : List String :=
  let isLata := includesLower subtype "lata"
  let defaults := ["Caja", "Media Caja"] ++ (if isLata then ["Six Pack"] else [])
  uniq (defaults ++ c.emissionOptions)

/-- The loop that collects the valid candidates of one bucket (units > 1, local price > 0). -/
def candidatesFor (c : Catalog) (beerName subtype : String) : List Candidate :=
  (allEmissionNames c subtype).filterMap (fun emName =>
    let units := getUnitsPerEmission c (some emName) subtype
    let priceUsd := getPrice c beerName (some emName) subtype "local"
    if units > 1 ∧ priceUsd > 0 then
      some { name := emName, units := units,
             priceBs := getBsPrice c beerName (some emName) subtype "local",
             priceUsd := priceUsd }
    else none)

/-- The call `candidates.sort((a, b) => b.units - a.units)`: stable, descending by units. -/
def sortCandidates (l : List Candidate) : List Candidate :=
  l.insertionSort (fun a b => a.units ≥ b.units)

/-- The line object pushed onto `optimizedItems`. -/
def optimizedLine (lineId beerName subtype emission : String)
    (quantity priceBs priceUsd : Int) : Item :=
  { id := lineId
    name := beerName
    beerType := none
    baseBeer := none
    beerVariety := "Normal"
    emission := some emission
    subtype := subtype
    quantity := some quantity
    slots := none
    composition := none
    unitPriceBs := some priceBs
    unitPriceUsd := some priceUsd
    totalPriceBs := some (quantity * priceBs)
    totalPriceUsd := some (quantity * priceUsd)
    type := some "Local"
    addedAt := none }

/-- One iteration of the greedy loop over the sorted candidates; the state is
`(remaining, totals)`. On this path `remaining >= cand.units > 1`, where
`Math.floor(remaining / cand.units)` and `remaining % cand.units` are `/` and `%`.
The id of a new line comes from `fresh` at the number of lines emitted so far. -/
def greedyStep (fresh : Nat → String) (beerName subtype : String)
    (st : Int × Totals) (cand : Candidate) : Int × Totals :=
  let remaining := st.1
  let acc := st.2
  if remaining ≥ cand.units then
    let count := remaining / cand.units
    if count > 0 then
      (remaining % cand.units,
        { totalBs := acc.totalBs + count * cand.priceBs
          totalUsd := acc.totalUsd + count * cand.priceUsd
          details := acc.details ++
            [toString count ++ " " ++ cand.name ++ (if count > 1 then "s" else "")]
          optimizedItems := acc.optimizedItems ++
            [optimizedLine (fresh acc.optimizedItems.length) beerName subtype cand.name count
              cand.priceBs cand.priceUsd] })
    else st
  else st

/-- The body of the loop over `Object.entries(localConsumptionMap)` for one bucket. -/
def optimizeBucket (c : Catalog) (fresh : Nat → String) (acc : Totals) (key : String)
    (totalUnits : Int) : Totals :=
  let beerName := (splitKey key).1
  let subtype := (splitKey key).2
  let candidates := sortCandidates (candidatesFor c beerName subtype)
  let st := candidates.foldl (greedyStep fresh beerName subtype) (totalUnits, acc)
  let remaining := st.1
  let acc := st.2
  if remaining > 0 then
    let priceBs := getBsPrice c beerName (some "Unidad") subtype "local"
    let priceUsd := getPrice c beerName (some "Unidad") subtype "local"
    { totalBs := acc.totalBs + remaining * priceBs
      totalUsd := acc.totalUsd + remaining * priceUsd
      details := acc.details
      optimizedItems := acc.optimizedItems ++
        [optimizedLine (fresh acc.optimizedItems.length) beerName subtype "Unidad" remaining
          priceBs priceUsd] }
  else acc

/-- The per-item pricing of the take-away branch of step 1. -/
def priceToGo (c : Catalog) (acc : Totals) (item : Item) : Totals :=
  let beerName := beerNameOf item
  if item.beerVariety = "Variado" ∧ item.composition.isSome then
    { acc with
      totalBs := acc.totalBs + orZero item.unitPriceBs * orOne item.quantity
      totalUsd := acc.totalUsd + orZero item.unitPriceUsd * orOne item.quantity }
  else
    let priceBs := getBsPrice c beerName item.emission item.subtype "standard"
    let priceUsd := getPrice c beerName item.emission item.subtype "standard"
    { acc with
      totalBs := acc.totalBs + priceBs * orOne item.quantity
      totalUsd := acc.totalUsd + priceUsd * orOne item.quantity }

/-- Source: `calculateOrderTotal(items, type)`. -/
def calculateOrderTotal (c : Catalog) (fresh : Nat → String) (items : List Item)
    (type : String) : Totals :=
  let isLocal : Bool := type == "Local"
  let start : Totals := { totalBs := 0, totalUsd := 0, details := [], optimizedItems := [] }
  -- 1. process items
  let step1 : Totals × List (String × Int) :=
    items.foldl (fun st item =>
      if isLocal then (st.1, countSlots st.2 item) else (priceToGo c st.1 item, st.2))
      (start, [])
  -- 2. optimization for Local
  let step2 : Totals :=
    if isLocal then
      step1.2.foldl (fun acc kv => optimizeBucket c fresh acc kv.1 kv.2) step1.1
    else step1.1
  -- 3. not local: copy the original items
  if !isLocal then { step2 with optimizedItems := step2.optimizedItems ++ items } else step2

/-! ## Closing, direct sale and slot reassignment -/

/-- The stock loop of `closeOrder` for one item of an order of type `type`, run in a
render whose inventory is `inventory`, on the current inventory `prev`. -/
def closeItemStock (c : Catalog) (inventory : Inventory) (type : String) (prev : Inventory)
    (item : Item) : Inventory :=
  let beerName := beerNameOf item
  let isLocal : Bool := type == "Local"
  if !isLocal then
    if item.beerVariety = "Variado" then
      deductSlots c inventory item.subtype (slotsOr item [some beerName]) prev
    else
      deductStock c inventory beerName item.emission item.subtype (orOne item.quantity) prev
  else prev

/-- The object `orderToClose` that `closeOrder` stores in place of the order `o`. -/
def paidOrder (o : Order) (now : Nat) (paymentMethod : Option String) (reference : String)
    (totals : Totals) : Order :=
  { o with
    status := "PAID"
    closedAt := some now
    paymentMethod := paymentMethod
    reference := reference
    totalAmountBs := some totals.totalBs
    totalAmountUsd := some totals.totalUsd
    items := totals.optimizedItems }

/-- Source: `closeOrder(orderId, paymentMethod, reference)`. -/
def closeOrder (c : Catalog) (now : Nat) (fresh : Nat → String) (s : State)
    (orderId : String) (paymentMethod : Option String) (reference : String) : State :=
  match s.orders.find? (fun o => o.id == orderId) with
  | none => s
  | some order =>
    let inv := order.items.foldl (closeItemStock c s.inventory order.type) s.inventory
    let totals := calculateOrderTotal c fresh order.items order.type
    { orders := s.orders.map (fun o =>
        if o.id = orderId then paidOrder o now paymentMethod reference totals else o)
      inventory := inv }

/-- The stock loop of `processDirectSale` for one item, run in a render whose inventory
is `inventory`, on the current inventory `prev`. -/
def directSaleItemStock (c : Catalog) (inventory : Inventory) (prev : Inventory)
    (item : Item) : Inventory :=
  let beerName := beerNameOf item
  if item.beerVariety = "Variado" ∧ item.composition.isSome then
    (item.composition.getD []).foldl (fun acc bu =>
      deductStock c inventory bu.1 (some "Unidad") item.subtype (bu.2 * orOne item.quantity)
        acc) prev
  else deductStock c inventory beerName item.emission item.subtype (orOne item.quantity) prev

/-- Source: `processDirectSale(customerName, items, paymentMethod, reference)`. -/
def processDirectSale (c : Catalog) (now ticket : Nat) (user : String) (fresh : Nat → String)
    (s : State) (customerName : String) (items : List Item) (paymentMethod : Option String)
    (reference : String) : Order × State :=
  let totals := calculateOrderTotal c fresh items "Para Llevar"
  let newOrder : Order :=
    { id := toString now
      ticketNumber := ticket
      customerName := if customerName != "" then customerName else "Venta Directa"
      status := "PAID"
      type := "Llevar"
      paymentMethod := paymentMethod
      reference := reference
      createdBy := user
      createdAt := now
      closedAt := some now
      items := totals.optimizedItems
      totalAmountBs := some totals.totalBs
      totalAmountUsd := some totals.totalUsd }
  let inv := items.foldl (directSaleItemStock c s.inventory) s.inventory
  (newOrder, { orders := newOrder :: s.orders, inventory := inv })

/-- The assignment `newSlots[slotIndex] = content` on a copy of the slot array: a
position past the end leaves holes before it. -/
def writeSlot (slots : List (Option String)) (slotIndex : Nat)
    (content : Option String) : List (Option String) :=
  if slotIndex < slots.length then slots.set slotIndex content
  else slots ++ List.replicate (slotIndex - slots.length) none ++ [content]

/-- The slot array stored by `updateOrderItemSlot` for a content that is a product name
or `null`: the write, then for a `Libre` item `newSlots.filter(s => s !== null)`, which
drops the `null` entries and skips the holes the write left. -/
def finalSlots (item : Item) (slotIndex : Nat) (content : Option String) :
    List (Option String) :=
  let newSlots := writeSlot (item.slots.getD []) slotIndex content
  if item.emission = some "Libre" then newSlots.filter (fun sl => sl.isSome) else newSlots

/-- How a call ends: it returns, or it throws (a `TypeError` on reading a field of
`undefined`); either way it leaves a state behind. -/
inductive Outcome where
  | returned (s : State)
  | raised (s : State)

/-- The state a call leaves behind. -/
def Outcome.state : Outcome → State
  | .returned s => s
  | .raised s => s

/-- The state updater of `updateOrderItemSlot` on one order; `none` when
`newItems[itemIndex]` is `undefined` and reading its `slots` throws. -/
def updateSlotInOrder (orderId : String) (itemIndex slotIndex : Nat) (content : Option String)
    (o : Order) : Option Order :=
  if o.id ≠ orderId then some o
  else
    match o.items[itemIndex]? with
    | none => none
    | some currentItem =>
      some { o with
        items := o.items.set itemIndex
          { currentItem with slots := some (finalSlots currentItem slotIndex content) } }

/-- The call `prev.map(updater)` with an updater that may throw: `none` when it throws
on some order. -/
def mapOrders (f : Order → Option Order) : List Order → Option (List Order)
  | [] => some []
  | o :: rest =>
    match f o with
    | none => none
    | some o1 =>
      match mapOrders f rest with
      | none => none
      | some rest1 => some (o1 :: rest1)

/-- Source: `updateOrderItemSlot(orderId, itemIndex, slotIndex, content)`. -/
def updateOrderItemSlot (c : Catalog) (s : State) (orderId : String)
    (itemIndex slotIndex : Nat) (content : Option String) : Outcome :=
  match s.orders.find? (fun o => o.id == orderId) with
  | none => .returned s
  | some order =>
    match order.items[itemIndex]? with
    | none => .raised s
    | some item =>
      let oldContent : Option String := ((item.slots.getD [])[slotIndex]?).join
      if order.type = "Local" ∧ truthy content ∧
          !checkStock c s.inventory (tpl content) (some "Unidad") item.subtype 1 then
        .returned s
      else
        let inv1 :=
          if order.type = "Local" ∧ truthy oldContent
          then addStock c s.inventory (tpl oldContent) (some "Unidad") item.subtype 1 s.inventory
          else s.inventory
        let inv2 :=
          if order.type = "Local" ∧ truthy content
          then deductStock c s.inventory (tpl content) (some "Unidad") item.subtype 1 inv1
          else inv1
        match mapOrders (updateSlotInOrder orderId itemIndex slotIndex content) s.orders with
        | none => .raised { s with inventory := inv2 }
        | some orders => .returned { orders := orders, inventory := inv2 }

/-! ## Quantities the properties are stated with -/

/-- Number of slot entries of the items that pass the test `if (slotBeer)`. -/
def populatedSlots (items : List Item) : Int :=
  (items.map (fun item => (((item.slots.getD []).filter truthy).length : Int))).sum

/-- Units a line stands for: `quantity * getUnitsPerEmission(line.emission, line.subtype)`. -/
def lineUnits (c : Catalog) (line : Item) : Int :=
  orZero line.quantity * getUnitsPerEmission c line.emission line.subtype

/-- Sum of `lineUnits` over a list of lines. -/
def unitsOfLines (c : Catalog) (lines : List Item) : Int :=
  (lines.map (lineUnits c)).sum

/-- Sum of the counts stored in a consumption map. -/
def mapTotal (m : List (String × Int)) : Int := (m.map Prod.snd).sum

/-- The consumption map that step 1 of the local path builds. -/
def localConsumptionMap (items : List Item) : List (String × Int) :=
  items.foldl countSlots []

/-- A line is a pack line when it is priced as a real multi-unit pack: more than one
unit per pack and a positive local price. -/
def IsPackLine (c : Catalog) (line : Item) : Prop :=
  1 < getUnitsPerEmission c line.emission line.subtype ∧
    0 < getPrice c line.name line.emission line.subtype "local"

/-- What the candidate loop guarantees of a candidate of the bucket `(beerName, subtype)`. -/
def ValidCand (c : Catalog) (beerName subtype : String) (cand : Candidate) : Prop :=
  cand.units = getUnitsPerEmission c (some cand.name) subtype ∧ 1 < cand.units ∧
    cand.priceUsd = getPrice c beerName (some cand.name) subtype "local" ∧ 0 < cand.priceUsd ∧
    cand.priceBs = getBsPrice c beerName (some cand.name) subtype "local"

/-- The lines the skip rule allows: the `Unidad` remainder line, or a real pack line. -/
def AllowedLine (c : Catalog) (line : Item) : Prop :=
  line.emission = some "Unidad" ∨ IsPackLine c line

/-! ## Covers of a bucket -/

/-- Value of the greedy decomposition of `n` units over the sorted candidates, where
one pack of `cand` is worth `w cand` and one single unit is worth `w1`. -/
def greedyValue (w : Candidate → Int) (w1 : Int) : List Candidate → Int → Int
  | [], n => n * w1
  | cand :: rest, n => (n / cand.units) * w cand + greedyValue w w1 rest (n % cand.units)

/-- Units of one element of a cover: `none` is a single unit, `some cand` one pack. -/
def packUnits : Option Candidate → Int
  | none => 1
  | some cand => cand.units

/-- Value of one element of a cover. -/
def packValue (w : Candidate → Int) (w1 : Int) : Option Candidate → Int
  | none => w1
  | some cand => w cand

/-- Units covered by a multiset of packs and single units, given as a list. -/
def coverUnits (cover : List (Option Candidate)) : Int := (cover.map packUnits).sum

/-- Value of a cover. -/
def coverValue (w : Candidate → Int) (w1 : Int) (cover : List (Option Candidate)) : Int :=
  (cover.map (packValue w w1)).sum

/-- Number of packs and single units a list of lines stands for: the sum of the
line quantities. -/
def quantityOfLines (lines : List Item) : Int := (lines.map (fun l => orZero l.quantity)).sum

/-- The local `Unidad` price of the bucket with consumption key `key`. -/
def bucketUnitPrice (c : Catalog) (key : String) : Int :=
  getPrice c (splitKey key).1 (some "Unidad") (splitKey key).2 "local"

/-- The valid candidate packs of the bucket with consumption key `key`. -/
def bucketCandidates (c : Catalog) (key : String) : List Candidate :=
  candidatesFor c (splitKey key).1 (splitKey key).2

/-- A cover of a bucket: packs taken among its valid candidates, and single units,
whose units add up to exactly the bucket's consumed units. -/
def IsBucketCover (c : Catalog) (key : String) (totalUnits : Int)
    (cover : List (Option Candidate)) : Prop :=
  (∀ a, some a ∈ cover → a ∈ bucketCandidates c key) ∧ coverUnits cover = totalUnits

/-- Cost in USD of a cover of one bucket: packs at their local price, single units at
the local `Unidad` price. -/
def coverCostUsd (c : Catalog) (key : String) (cover : List (Option Candidate)) : Int :=
  coverValue Candidate.priceUsd (bucketUnitPrice c key) cover

/-- Cost in USD of one cover per bucket, the covers listed in bucket order. -/
def coversCostUsd (c : Catalog) :
    List (String × Int) → List (List (Option Candidate)) → Int
  | kv :: m, cover :: covers => coverCostUsd c kv.1 cover + coversCostUsd c m covers
  | _, _ => 0

/-! ## Direct sale: the deduction the specification describes -/

/-- One stock deduction request: `(product, pack, subtype, quantity)`. -/
abbrev Deduction := String × Option String × String × Int

/-- Deductions the specification lists for one item of a direct sale: for a `Variado`
item with a composition, one `Unidad` deduction of `unitsPerBox * quantity` per
component; otherwise one deduction of `quantity` at the item's own pack, for the item's
product name (`beerType || name`). An absent or zero quantity counts as 1. -/
def itemDeductions (item : Item) : List Deduction :=
  if item.beerVariety = "Variado" ∧ item.composition.isSome then
    (item.composition.getD []).map (fun bu =>
      (bu.1, some "Unidad", item.subtype, bu.2 * orOne item.quantity))
  else [(beerNameOf item, item.emission, item.subtype, orOne item.quantity)]

/-- Deductions of a direct sale, item by item in input order. -/
def directSaleDeductions : List Item → List Deduction
  | [] => []
  | item :: rest => itemDeductions item ++ directSaleDeductions rest

/-- Applying deduction requests in order, each one a `deductStock` on the inventory the
previous one left. -/
def applyDeductions (c : Catalog) (inv : Inventory) (reqs : List Deduction) : Inventory :=
  reqs.foldl (fun acc r => deductStock c acc r.1 r.2.1 r.2.2.1 r.2.2.2 acc) inv

/-- Take-away price in USD of one item: its own unit price when it is `Variado` with a
composition, the standard catalog price otherwise, times the quantity. -/
def toGoUsd (c : Catalog) (item : Item) : Int :=
  if item.beerVariety = "Variado" ∧ item.composition.isSome
  then orZero item.unitPriceUsd * orOne item.quantity
  else getPrice c (beerNameOf item) item.emission item.subtype "standard" * orOne item.quantity

/-- Take-away price in Bs of one item. -/
def toGoBs (c : Catalog) (item : Item) : Int :=
  if item.beerVariety = "Variado" ∧ item.composition.isSome
  then orZero item.unitPriceBs * orOne item.quantity
  else getBsPrice c (beerNameOf item) item.emission item.subtype "standard" * orOne item.quantity

/-- The fields of an order that a closed ticket fixes: id, status, items and totals. -/
def closedView (o : Order) : String × String × List Item × Option Int × Option Int :=
  (o.id, o.status, o.items, o.totalAmountBs, o.totalAmountUsd)

/-- Whether a call returned (did not throw). -/
def Outcome.isReturned : Outcome → Bool
  | .returned _ => true
  | .raised _ => false

/-! ## Concrete catalogs, items and states used as test inputs -/

/-- An item with just the fields a caller of the order engine supplies. -/
def plainItem (id name beerVariety : String) (emission : Option String) (subtype : String)
    (quantity : Option Int) (slots : Option (List (Option String))) : Item :=
  { id := id
    name := name
    beerType := none
    baseBeer := none
    beerVariety := beerVariety
    emission := emission
    subtype := subtype
    quantity := quantity
    slots := slots
    composition := none
    unitPriceBs := none
    unitPriceUsd := none
    totalPriceBs := none
    totalPriceUsd := none
    type := none
    addedAt := none }

/-- An open ticket with the given id, type and items. -/
def openTicket (id type : String) (items : List Item) : Order :=
  { id := id
    ticketNumber := 1000
    customerName := "Cliente"
    status := "OPEN"
    type := type
    paymentMethod := none
    reference := ""
    createdBy := "Desconocido"
    createdAt := 0
    closedAt := none
    items := items
    totalAmountBs := none
    totalAmountUsd := none }

/-- The empty result the optimizer starts from. -/
def noTotals : Totals := { totalBs := 0, totalUsd := 0, details := [], optimizedItems := [] }

/-- Line ids are irrelevant to the properties; the test inputs use a constant supply. -/
def noIds : Nat → String := fun _ => ""

/-- The catalog of the optimizer example: for `Botella`, `Caja` is 36 units and
`Media Caja` 18 units; for `Polar Pilsen`, `Caja` costs 30, `Media Caja` 16 and
`Unidad` 1 at the local rate. -/
def polarCatalog : Catalog :=
  { conversions := fun k =>
      if k = "Caja_Botella" then 36 else if k = "Media Caja_Botella" then 18 else 0
    rawEmissions := []
    emissionOptions := ["Unidad", "Caja", "Media Caja"]
    prices := fun k =>
      if k = "Polar Pilsen_Caja_Botella_local" then 30
      else if k = "Polar Pilsen_Media Caja_Botella_local" then 16
      else if k = "Polar Pilsen_Unidad_Botella_local" then 1
      else 0
    bcv := 1 }

/-- An open-tab item whose slots hold `n` units of `Polar Pilsen`. -/
def polarTab (n : Nat) : Item :=
  plainItem "consumption-1" "Consumo" "Variado" (some "Libre") "Botella" (some 1)
    (some (List.replicate n (some "Polar Pilsen")))

/-- The `Media Caja` candidate of `polarCatalog`. -/
def polarMedia : Candidate := { name := "Media Caja", units := 18, priceBs := 16, priceUsd := 16 }

/-- A catalog with the default 12-unit `Caja` priced above twelve single units:
`Caja` costs 15 and `Unidad` 1 at the local rate. -/
def dearCajaCatalog : Catalog :=
  { conversions := fun _ => 0
    rawEmissions := []
    emissionOptions := ["Unidad", "Caja"]
    prices := fun k =>
      if k = "Polar_Caja_Botella_local" then 15
      else if k = "Polar_Unidad_Botella_local" then 1
      else 0
    bcv := 1 }

/-- An open-tab item whose slots hold 12 units of `Polar`. -/
def dozenTab : Item :=
  plainItem "consumption-1" "Consumo" "Variado" (some "Libre") "Botella" (some 1)
    (some (List.replicate 12 (some "Polar")))

/-- A state with one empty `Local` ticket `"t1"` and 12 units of `(Polar, Botella)`. -/
def shopState : State :=
  { orders := [openTicket "t1" "Local" []]
    inventory := fun k => if k = "Polar_Botella" then 12 else 0 }

/-- A standard (non-`Variado`) item: one `Caja` of `Polar`. -/
def cajaItem : Item :=
  plainItem "i1" "Polar" "Normal" (some "Caja") "Botella" (some 1) none

/-- A state with no ticket and no stock. -/
def emptyState : State := { orders := [], inventory := fun _ => 0 }

/-- A state with a `Local` ticket `"t1"` holding an open-tab (`Libre`) item with no
slot filled, and 2 units of `(Polar, Botella)`. -/
def tabState : State :=
  { orders := [openTicket "t1" "Local"
      [plainItem "consumption-1" "Consumo" "Variado" (some "Libre") "Botella" (some 1) (some [])]]
    inventory := fun k => if k = "Polar_Botella" then 2 else 0 }

/-- A state with a `Local` ticket `"t1"` holding a `Caja` item with one slot filled with
`Polar`, and 2 units of `(Polar, Botella)`. -/
def crateState : State :=
  { orders := [openTicket "t1" "Local"
      [plainItem "i1" "Polar" "Normal" (some "Caja") "Botella" (some 1) (some [some "Polar"])]]
    inventory := fun k => if k = "Polar_Botella" then 2 else 0 }

/-- A state with a `Local` ticket `"t1"` whose open tab holds one `Polar Pilsen`. -/
def localTabState : State :=
  { orders := [openTicket "t1" "Local" [polarTab 1]]
    inventory := fun _ => 0 }

/-- A state with a take-away ticket `"t2"` holding one `Caja` of `Polar`, and 80 units
of `(Polar, Botella)`. -/
def toGoState : State :=
  { orders := [openTicket "t2" "Llevar" [cajaItem]]
    inventory := fun k => if k = "Polar_Botella" then 80 else 0 }

/-- A second standard item: one more `Caja` of `Polar`. -/
def secondCaja : Item :=
  plainItem "i4" "Polar" "Normal" (some "Caja") "Botella" (some 1) none

/-- A state with no ticket and 80 units of `(Polar, Botella)`. -/
def counterState : State :=
  { orders := []
    inventory := fun k => if k = "Polar_Botella" then 80 else 0 }

/-- A state with a take-away ticket `"t2"` holding two items, each one `Caja` of `Polar`,
and 80 units of `(Polar, Botella)`. -/
def twoCrateState : State :=
  { orders := [openTicket "t2" "Llevar" [cajaItem, secondCaja]]
    inventory := fun k => if k = "Polar_Botella" then 80 else 0 }

/-! ## Base stock and pending inventory (`ProductContext.jsx`) -/

/-- Source: `setBaseStock(beer, subtype, units)`. -/
def setBaseStock (inv : Inventory) (beer subtype : String) (units : Int) : Inventory :=
  let key := invKey beer subtype
  fun k => if k = key then units else inv k

/-- The pieces of `key.split('_')`, on character lists; `cur` holds the piece being
read, reversed. -/
def splitUnderscore : List Char → List Char → List (List Char)
  | [], cur => [cur.reverse]
  | ch :: rest, cur =>
    if ch = '_' then cur.reverse :: splitUnderscore rest [] else splitUnderscore rest (ch :: cur)

/-- The destructuring `const [beer, subtype] = key.split('_')`: the first piece, and the
second one when there is one. -/
def splitPendingKey (key : String) : String × Option String :=
  match splitUnderscore key.data [] with
  | [] => ("", none)
  | [beer] => (String.mk beer, none)
  | beer :: subtype :: _ => (String.mk beer, some (String.mk subtype))

/-- The report of `commitInventory`, without its id and timestamp. -/
structure CommitReport where
  movements : List (String × Option String × Int)
  totalUnits : Int

/-- Source: `commitInventory()` on the entries of `pendingInventory`, in key order: every
entry goes through `addStock(beer, 'Unidad', subtype, quantity)`, all of them called in
the render whose inventory is `inv`. An `undefined` subtype prints as `undefined` in the
inventory key. The movements are listed in entry order (the order in which the pending
`await`s settle is not modelled). -/
def commitInventory (c : Catalog) (inv : Inventory) (pending : List (String × Int)) :
    Inventory × CommitReport :=
  pending.foldl (fun st kq =>
    let beer := (splitPendingKey kq.1).1
    let subtype := (splitPendingKey kq.1).2
    (addStock c inv beer (some "Unidad") (tpl subtype) kq.2 st.1,
      { movements := st.2.movements ++ [(beer, subtype, kq.2)]
        totalUnits := st.2.totalUnits + kq.2 }))
    (inv, { movements := [], totalUnits := 0 })

/-! ## Predicates on inventories and order lists -/

/-- Every count of the inventory is at least zero. -/
def NonNegative (inv : Inventory) : Prop := ∀ k, 0 ≤ inv k

/-- The item `addItemToOrder` stores: the given item with its quantity defaulted, the
time of the call, and the given slots. -/
def storedItem (now : Nat) (item : Item) (slots : Option (List (Option String))) : Item :=
  { item with quantity := some (orOne item.quantity), addedAt := some now, slots := slots }

/-- The orders of `after` are those of `before`, position by position, with the same id,
and no order that was `PAID` is `OPEN`. -/
def NoReopen (before after : List Order) : Prop :=
  List.Forall₂ (fun o o1 => o1.id = o.id ∧ (o.status = "PAID" → o1.status ≠ "OPEN"))
    before after

/-- The orders of `after` are those of `before`, position by position, with the same id,
and every order that was `PAID` is still `PAID`. -/
def PaidKept (before after : List Order) : Prop :=
  List.Forall₂ (fun o o1 => o1.id = o.id ∧ (o.status = "PAID" → o1.status = "PAID"))
    before after

/-- The fallback chain the specification documents for the units of a pack: 1 for a
missing pack, `Unidad` and `Libre`; else the conversion override of `(pack, subtype)` when
there is one; else the units of the catalog emission of that name when there is one; else,
for `Caja`, 24 when the subtype contains "lata", 36 when it contains "tercio", 12
otherwise; else 1. -/
def documentedUnits (c : Catalog) (emission : Option String) (subtype : String) : Int :=
  match emission with
  | none => 1
  | some pack =>
    if pack = "" ∨ pack = "Unidad" ∨ pack = "Libre" then 1
    else if c.conversions (pack ++ "_" ++ subtype) ≠ 0 then c.conversions (pack ++ "_" ++ subtype)
    else
      match c.rawEmissions.find? (fun e => e.name == pack) with
      | some e => e.units
      | none =>
        if pack = "Caja" then
          if includesLower subtype "lata" then 24
          else if includesLower subtype "tercio" then 36
          else 12
        else 1

/-- An inventory with 3 units of `(Polar, Botella)` and nothing else. -/
def smallStock : Inventory := fun k => if k = "Polar_Botella" then 3 else 0

/-- A closed (`PAID`) take-away ticket with the given id. -/
def paidTicket (id : String) : Order :=
  { openTicket id "Llevar" [] with
    status := "PAID"
    closedAt := some 1
    totalAmountBs := some 0
    totalAmountUsd := some 0 }

/-- A state with the closed ticket `"p1"`, the open `Local` ticket `"t1"` and no stock. -/
def archiveState : State :=
  { orders := [paidTicket "p1", openTicket "t1" "Local" []]
    inventory := fun _ => 0 }

/-- A `Variado` item of product `Polar` asking for five `Caja`. -/
def variadoPolar : Item :=
  plainItem "i2" "Polar" "Variado" (some "Caja") "Botella" (some 5) none

/-- Two `Caja` of `Polar`: 24 units with the default 12-unit `Caja`. -/
def twoCajas : Item :=
  plainItem "i3" "Polar" "Normal" (some "Caja") "Botella" (some 2) none

/-- A catalog that defines the emission `Six Pack` as 6 units and overrides `Caja` to 30
units for the subtype `Lata`. -/
def emissionCatalog : Catalog :=
  { conversions := fun k => if k = "Caja_Lata" then 30 else 0
    rawEmissions := [{ name := "Six Pack", units := 6 }]
    emissionOptions := ["Unidad", "Caja", "Six Pack"]
    prices := fun _ => 0
    bcv := 1 }

/-! ## Closing an order: the deduction the specification describes -/

/-- Deductions the specification lists for one item when a take-away order is closed: for
a `Variado` item, one unit at `Unidad` for every populated slot, or once for the item's
own product name when it has no slots; for any other item, its quantity at its own pack. -/
def closeItemDeductions (item : Item) : List Deduction :=
  if item.beerVariety = "Variado" then
    match item.slots with
    | some (a :: l) =>
      ((a :: l).filter truthy).map (fun sl => (tpl sl, some "Unidad", item.subtype, 1))
    | _ => [(beerNameOf item, some "Unidad", item.subtype, 1)]
  else [(beerNameOf item, item.emission, item.subtype, orOne item.quantity)]

/-- Deductions of closing a take-away order, item by item in order. -/
def closeDeductions : List Item → List Deduction
  | [] => []
  | item :: rest => closeItemDeductions item ++ closeDeductions rest

/-- The fields of an item that `createOrder` copies from its input. -/
def itemCore (item : Item) :
    String × String × Option String × String × Option String × String × Option Int :=
  (item.id, item.name, item.beerType, item.beerVariety, item.emission, item.subtype,
    item.quantity)

/-- No slot of the items is populated. -/
def NoPopulatedSlot (items : List Item) : Prop :=
  ∀ item ∈ items, ∀ sl ∈ item.slots.getD [], truthy sl = false

/-! ## Totals of a list of lines -/

/-- Sum over the lines of `quantity * unitPriceUsd`. -/
def linesUsd (lines : List Item) : Int :=
  (lines.map (fun l => orZero l.quantity * orZero l.unitPriceUsd)).sum

/-- Sum over the lines of `quantity * unitPriceBs`. -/
def linesBs (lines : List Item) : Int :=
  (lines.map (fun l => orZero l.quantity * orZero l.unitPriceBs)).sum

/-- A line carries the local-rate catalog prices of its own name, emission and subtype,
and a quantity of at least 1. -/
def PricedLine (c : Catalog) (line : Item) : Prop :=
  line.unitPriceUsd = some (getPrice c line.name line.emission line.subtype "local") ∧
  line.unitPriceBs = some (getBsPrice c line.name line.emission line.subtype "local") ∧
  ∃ q, line.quantity = some q ∧ 1 ≤ q

/-- The totals of a result are the sums over its lines, and every line is priced from
the catalog. -/
def TotalsMatchLines (c : Catalog) (t : Totals) : Prop :=
  t.totalUsd = linesUsd t.optimizedItems ∧ t.totalBs = linesBs t.optimizedItems ∧
  ∀ line ∈ t.optimizedItems, PricedLine c line

/-- The item `createOrder` stores for an input item: its time of creation and its
initial slots set. -/
def initialItem (now : Nat) (item : Item) : Item :=
  { item with
    addedAt := some now
    slots := some (if item.beerVariety = "Variado"
      then [some (orElseStr item.baseBeer (orElseStr item.beerType item.name))] else []) }

/-- A line is built from a populated slot of the items: it carries the product name of
the slot and the subtype of the item holding it. -/
def FromSlot (items : List Item) (line : Item) : Prop :=
  ∃ item ∈ items, ∃ sl ∈ item.slots.getD [],
    truthy sl = true ∧ line.name = tpl sl ∧ line.subtype = item.subtype

/-! ## Units held in slots -/

/-- Whether a slot entry is populated and stands for the inventory key `k` when its item
has subtype `sub`: 1 when it does, 0 otherwise. -/
def slotHolds (sub k : String) (sl : Option String) : Int :=
  if truthy sl = true ∧ invKey (tpl sl) sub = k then 1 else 0

/-- Number of populated slots of an item that stand for the inventory key `k`. -/
def itemKeyCount (k : String) (item : Item) : Int :=
  ((item.slots.getD []).map (slotHolds item.subtype k)).sum

/-- Number of populated slots of an order that stand for the inventory key `k`: for
`k = invKey P S`, the slots holding `P` in the items of subtype `S`. -/
def orderKeyCount (order : Order) (k : String) : Int :=
  (order.items.map (itemKeyCount k)).sum

/-! # Properties -/

/-! ## Lemmas on the pack optimizer -/

theorem mapTotal_bump (m : List (String × Int)) (key : String) :
    mapTotal (bump m key) = mapTotal m + 1 := by
  induction m with
  | nil => simp [bump, mapTotal]
  | cons kv rest ih =>
    obtain ⟨k, v⟩ := kv
    unfold bump
    split
    · simp [mapTotal]; ring
    · simp only [mapTotal, List.map_cons, List.sum_cons] at ih ⊢
      rw [ih]; ring

theorem bump_pos (m : List (String × Int)) (key : String)
    (h : ∀ kv ∈ m, 0 < kv.2) : ∀ kv ∈ bump m key, 0 < kv.2 := by
  induction m with
  | nil => simp [bump]
  | cons kv rest ih =>
    obtain ⟨k, v⟩ := kv
    have hv : 0 < v := h (k, v) (List.mem_cons_self _ _)
    have hrest : ∀ kv ∈ rest, 0 < kv.2 := fun kv hkv => h kv (List.mem_cons_of_mem _ hkv)
    unfold bump
    split
    · intro kv hkv
      rcases List.mem_cons.mp hkv with rfl | hkv
      · show 0 < v + 1
        omega
      · exact hrest kv hkv
    · intro kv hkv
      rcases List.mem_cons.mp hkv with rfl | hkv
      · exact hv
      · exact ih hrest kv hkv

theorem countSlots_aux (sub : String) (slots : List (Option String)) (m : List (String × Int)) :
    mapTotal (slots.foldl (fun acc slotBeer =>
      if truthy slotBeer then bump acc (tpl slotBeer ++ "_" ++ sub) else acc) m)
      = mapTotal m + ((slots.filter truthy).length : Int) := by
  induction slots generalizing m with
  | nil => simp
  | cons a l ih =>
    simp only [List.foldl_cons]
    rw [ih]
    by_cases ha : truthy a = true
    · simp [ha, mapTotal_bump]; ring
    · simp [ha]

theorem countSlots_pos_aux (sub : String) (slots : List (Option String))
    (m : List (String × Int)) (h : ∀ kv ∈ m, 0 < kv.2) :
    ∀ kv ∈ slots.foldl (fun acc slotBeer =>
      if truthy slotBeer then bump acc (tpl slotBeer ++ "_" ++ sub) else acc) m, 0 < kv.2 := by
  induction slots generalizing m with
  | nil => simpa using h
  | cons a l ih =>
    simp only [List.foldl_cons]
    apply ih
    split
    · exact bump_pos m _ h
    · exact h

theorem mapTotal_foldl_countSlots (items : List Item) (m : List (String × Int)) :
    mapTotal (items.foldl countSlots m) = mapTotal m + populatedSlots items := by
  induction items generalizing m with
  | nil => simp [populatedSlots]
  | cons it l ih =>
    simp only [List.foldl_cons]
    rw [ih, countSlots, countSlots_aux]
    simp only [populatedSlots, List.map_cons, List.sum_cons]
    ring

theorem foldl_countSlots_pos (items : List Item) (m : List (String × Int))
    (h : ∀ kv ∈ m, 0 < kv.2) : ∀ kv ∈ items.foldl countSlots m, 0 < kv.2 := by
  induction items generalizing m with
  | nil => simpa using h
  | cons it l ih =>
    simp only [List.foldl_cons]
    exact ih _ (countSlots_pos_aux _ _ _ h)

theorem candidatesFor_valid (c : Catalog) (beerName subtype : String) :
    ∀ cand ∈ candidatesFor c beerName subtype, ValidCand c beerName subtype cand := by
  intro cand hc
  unfold candidatesFor at hc
  rw [List.mem_filterMap] at hc
  obtain ⟨em, _, hem⟩ := hc
  simp only at hem
  split at hem
  · rename_i h
    simp only [Option.some.injEq] at hem
    subst hem
    exact ⟨rfl, h.1, rfl, h.2, rfl⟩
  · simp at hem

theorem sortCandidates_valid (c : Catalog) (beerName subtype : String) :
    ∀ cand ∈ sortCandidates (candidatesFor c beerName subtype),
      ValidCand c beerName subtype cand := by
  intro cand hc
  unfold sortCandidates at hc
  exact candidatesFor_valid c beerName subtype cand
    ((List.perm_insertionSort _ _).mem_iff.mp hc)

theorem getUnits_unidad (c : Catalog) (subtype : String) :
    getUnitsPerEmission c (some "Unidad") subtype = 1 := by
  simp [getUnitsPerEmission]

theorem unitsOfLines_append (c : Catalog) (l1 l2 : List Item) :
    unitsOfLines c (l1 ++ l2) = unitsOfLines c l1 + unitsOfLines c l2 := by
  simp [unitsOfLines]

theorem lineUnits_optimizedLine (c : Catalog) (lineId beerName subtype emission : String)
    (q pb pu : Int) :
    lineUnits c (optimizedLine lineId beerName subtype emission q pb pu)
      = q * getUnitsPerEmission c (some emission) subtype := by
  simp [lineUnits, optimizedLine, orZero]

theorem greedyStep_units (c : Catalog) (fresh : Nat → String) (beerName subtype : String)
    (st : Int × Totals) (cand : Candidate) (hv : ValidCand c beerName subtype cand)
    (h0 : 0 ≤ st.1) :
    0 ≤ (greedyStep fresh beerName subtype st cand).1 ∧
    unitsOfLines c (greedyStep fresh beerName subtype st cand).2.optimizedItems
        + (greedyStep fresh beerName subtype st cand).1
      = unitsOfLines c st.2.optimizedItems + st.1 := by
  obtain ⟨hu, h1, -, -, -⟩ := hv
  unfold greedyStep
  simp only
  split
  · split
    · refine ⟨Int.emod_nonneg _ (by omega), ?_⟩
      simp only [unitsOfLines_append]
      simp only [unitsOfLines, List.map_cons, List.map_nil, List.sum_cons, List.sum_nil,
        lineUnits_optimizedLine, ← hu]
      have := Int.emod_add_ediv st.1 cand.units
      linarith [mul_comm (st.1 / cand.units) cand.units]
    · exact ⟨h0, rfl⟩
  · exact ⟨h0, rfl⟩

theorem greedy_units (c : Catalog) (fresh : Nat → String) (beerName subtype : String)
    (cs : List Candidate) (hv : ∀ cand ∈ cs, ValidCand c beerName subtype cand)
    (st : Int × Totals) (h0 : 0 ≤ st.1) :
    0 ≤ (cs.foldl (greedyStep fresh beerName subtype) st).1 ∧
    unitsOfLines c (cs.foldl (greedyStep fresh beerName subtype) st).2.optimizedItems
        + (cs.foldl (greedyStep fresh beerName subtype) st).1
      = unitsOfLines c st.2.optimizedItems + st.1 := by
  induction cs generalizing st with
  | nil => exact ⟨h0, rfl⟩
  | cons cand rest ih =>
    simp only [List.foldl_cons]
    have hstep := greedyStep_units c fresh beerName subtype st cand
      (hv cand (List.mem_cons_self _ _)) h0
    have hrest := ih (fun x hx => hv x (List.mem_cons_of_mem _ hx)) _ hstep.1
    exact ⟨hrest.1, hrest.2.trans hstep.2⟩

theorem optimizeBucket_units (c : Catalog) (fresh : Nat → String) (acc : Totals)
    (key : String) (totalUnits : Int) (h0 : 0 ≤ totalUnits) :
    unitsOfLines c (optimizeBucket c fresh acc key totalUnits).optimizedItems
      = unitsOfLines c acc.optimizedItems + totalUnits := by
  have hg := greedy_units c fresh (splitKey key).1 (splitKey key).2
    (sortCandidates (candidatesFor c (splitKey key).1 (splitKey key).2))
    (sortCandidates_valid c _ _) (totalUnits, acc) h0
  unfold optimizeBucket
  simp only
  split
  · simp only [unitsOfLines_append]
    simp only [unitsOfLines, List.map_cons, List.map_nil, List.sum_cons, List.sum_nil,
      lineUnits_optimizedLine, getUnits_unidad] at hg ⊢
    linarith [hg.2]
  · rename_i hneg
    have := hg.1
    simp only at hg
    linarith [hg.2]

theorem buckets_units (c : Catalog) (fresh : Nat → String) (m : List (String × Int))
    (hm : ∀ kv ∈ m, 0 < kv.2) (acc : Totals) :
    unitsOfLines c (m.foldl (fun a kv => optimizeBucket c fresh a kv.1 kv.2) acc).optimizedItems
      = unitsOfLines c acc.optimizedItems + mapTotal m := by
  induction m generalizing acc with
  | nil => simp [mapTotal]
  | cons kv rest ih =>
    simp only [List.foldl_cons]
    rw [ih (fun x hx => hm x (List.mem_cons_of_mem _ hx))]
    rw [optimizeBucket_units c fresh acc kv.1 kv.2
      (le_of_lt (hm kv (List.mem_cons_self _ _)))]
    simp only [mapTotal, List.map_cons, List.sum_cons]
    ring

theorem step1_local (items : List Item) (st : Totals × List (String × Int)) :
    items.foldl (fun st item => (st.1, countSlots st.2 item)) st
      = (st.1, items.foldl countSlots st.2) := by
  induction items generalizing st with
  | nil => rfl
  | cons it l ih => simp only [List.foldl_cons]; rw [ih]

theorem calculateOrderTotal_local (c : Catalog) (fresh : Nat → String) (items : List Item) :
    calculateOrderTotal c fresh items "Local"
      = (localConsumptionMap items).foldl (fun a kv => optimizeBucket c fresh a kv.1 kv.2)
          { totalBs := 0, totalUsd := 0, details := [], optimizedItems := [] } := by
  unfold calculateOrderTotal localConsumptionMap
  have h : (("Local" : String) == "Local") = true := by decide
  simp only [h]
  simp [step1_local]

/-- Claim C4 (unit conservation of the pack optimizer): for every catalog and item list,
the lines of `calculateOrderTotal(items, 'Local').optimizedItems` stand for exactly as
many units, summing `quantity * getUnitsPerEmission(line.emission, line.subtype)`, as the
items have populated slot entries, that is entries passing the source's `if (slotBeer)`
test (a product name, not `null`). -/
theorem optimizer_conserves_units (c : Catalog) (fresh : Nat → String) (items : List Item) :
    unitsOfLines c (calculateOrderTotal c fresh items "Local").optimizedItems
      = populatedSlots items := by
  rw [calculateOrderTotal_local, buckets_units c fresh (localConsumptionMap items)
    (foldl_countSlots_pos items [] (by simp))]
  rw [localConsumptionMap, mapTotal_foldl_countSlots]
  simp [unitsOfLines, mapTotal]
theorem allowed_optimizedLine_cand (c : Catalog) (lineId beerName subtype : String)
    (cand : Candidate) (q : Int) (hv : ValidCand c beerName subtype cand) :
    AllowedLine c (optimizedLine lineId beerName subtype cand.name q cand.priceBs cand.priceUsd) := by
  obtain ⟨hu, h1, hp, hpos, -⟩ := hv
  right
  refine ⟨?_, ?_⟩
  · show 1 < getUnitsPerEmission c (some cand.name) subtype
    rw [← hu]; exact h1
  · show 0 < getPrice c beerName (some cand.name) subtype "local"
    rw [← hp]; exact hpos

theorem greedyStep_allowed (c : Catalog) (fresh : Nat → String) (beerName subtype : String)
    (st : Int × Totals) (cand : Candidate) (hv : ValidCand c beerName subtype cand)
    (h : ∀ l ∈ st.2.optimizedItems, AllowedLine c l) :
    ∀ l ∈ (greedyStep fresh beerName subtype st cand).2.optimizedItems, AllowedLine c l := by
  unfold greedyStep
  simp only
  split
  · split
    · intro l hl
      rcases List.mem_append.mp hl with hl | hl
      · exact h l hl
      · rw [List.mem_singleton] at hl
        subst hl
        exact allowed_optimizedLine_cand c _ _ _ cand _ hv
    · exact h
  · exact h

theorem greedy_allowed (c : Catalog) (fresh : Nat → String) (beerName subtype : String)
    (cs : List Candidate) (hv : ∀ cand ∈ cs, ValidCand c beerName subtype cand)
    (st : Int × Totals) (h : ∀ l ∈ st.2.optimizedItems, AllowedLine c l) :
    ∀ l ∈ (cs.foldl (greedyStep fresh beerName subtype) st).2.optimizedItems,
      AllowedLine c l := by
  induction cs generalizing st with
  | nil => exact h
  | cons cand rest ih =>
    simp only [List.foldl_cons]
    exact ih (fun x hx => hv x (List.mem_cons_of_mem _ hx)) _
      (greedyStep_allowed c fresh beerName subtype st cand (hv cand (List.mem_cons_self _ _)) h)

theorem optimizeBucket_allowed (c : Catalog) (fresh : Nat → String) (acc : Totals)
    (key : String) (totalUnits : Int) (h : ∀ l ∈ acc.optimizedItems, AllowedLine c l) :
    ∀ l ∈ (optimizeBucket c fresh acc key totalUnits).optimizedItems, AllowedLine c l := by
  have hg := greedy_allowed c fresh (splitKey key).1 (splitKey key).2
    (sortCandidates (candidatesFor c (splitKey key).1 (splitKey key).2))
    (sortCandidates_valid c _ _) (totalUnits, acc) h
  unfold optimizeBucket
  simp only
  split
  · intro l hl
    rcases List.mem_append.mp hl with hl | hl
    · exact hg l hl
    · rw [List.mem_singleton] at hl
      subst hl
      left
      rfl
  · exact hg

theorem buckets_allowed (c : Catalog) (fresh : Nat → String) (m : List (String × Int))
    (acc : Totals) (h : ∀ l ∈ acc.optimizedItems, AllowedLine c l) :
    ∀ l ∈ (m.foldl (fun a kv => optimizeBucket c fresh a kv.1 kv.2) acc).optimizedItems,
      AllowedLine c l := by
  induction m generalizing acc with
  | nil => exact h
  | cons kv rest ih =>
    simp only [List.foldl_cons]
    exact ih _ (optimizeBucket_allowed c fresh acc kv.1 kv.2 h)

/-- Claim C8 (optimizer skip rule): every line of
`calculateOrderTotal(items, 'Local').optimizedItems` is either a `Unidad` remainder line
or uses a pack with more than one unit per pack and a positive local USD price, for the
line's own name and subtype; a pack with one unit or no positive price is never chosen. -/
theorem optimizer_skip_rule (c : Catalog) (fresh : Nat → String) (items : List Item) :
    ∀ line ∈ (calculateOrderTotal c fresh items "Local").optimizedItems,
      line.emission = some "Unidad" ∨
      (1 < getUnitsPerEmission c line.emission line.subtype ∧
        0 < getPrice c line.name line.emission line.subtype "local") := by
  rw [calculateOrderTotal_local]
  exact buckets_allowed c fresh _ _ (by simp)
theorem greedyValue_add_mul (w : Candidate → Int) (w1 : Int) (rest : List Candidate)
    (cand : Candidate) (x k : Int) (hk : 0 ≤ k)
    (hrest : ∀ d ∈ rest, 0 < d.units)
    (hhead : ∀ d ∈ rest.head?, d.units ∣ cand.units ∧ w cand * d.units ≤ cand.units * w d)
    (hlast : rest = [] → w cand ≤ cand.units * w1) :
    k * w cand + greedyValue w w1 rest x ≤ greedyValue w w1 rest (x + k * cand.units) := by
  cases rest with
  | nil =>
    simp only [greedyValue]
    have h := hlast rfl
    nlinarith [mul_nonneg hk (sub_nonneg.mpr h)]
  | cons d ds =>
    have hd : 0 < d.units := hrest d (List.mem_cons_self _ _)
    obtain ⟨⟨t, ht⟩, hw⟩ := hhead d (by simp)
    have hwt : w cand ≤ t * w d := by
      rw [ht] at hw
      have h2 : w cand * d.units ≤ (t * w d) * d.units := by linarith [hw]
      exact le_of_mul_le_mul_right h2 hd
    simp only [greedyValue]
    have e1 : (x + k * cand.units) / d.units = x / d.units + k * t := by
      rw [ht, show x + k * (d.units * t) = x + d.units * (k * t) by ring]
      exact Int.add_mul_ediv_left x (k * t) (ne_of_gt hd)
    have e2 : (x + k * cand.units) % d.units = x % d.units := by
      rw [ht, show x + k * (d.units * t) = x + d.units * (k * t) by ring]
      exact Int.add_mul_emod_self_left x d.units (k * t)
    rw [e1, e2]
    nlinarith [mul_nonneg hk (sub_nonneg.mpr hwt)]

theorem coverUnits_nonneg (cs : List Candidate) (hcs : ∀ a ∈ cs, 0 < a.units)
    (cover : List (Option Candidate)) (hcover : ∀ a, some a ∈ cover → a ∈ cs) :
    0 ≤ coverUnits cover := by
  induction cover with
  | nil => simp [coverUnits]
  | cons p l ih =>
    have hl := ih (fun a ha => hcover a (List.mem_cons_of_mem _ ha))
    simp only [coverUnits, List.map_cons, List.sum_cons] at hl ⊢
    cases p with
    | none => simp only [packUnits]; omega
    | some a =>
      have := hcs a (hcover a (List.mem_cons_self _ _))
      simp only [packUnits]; omega

theorem cover_split (w : Candidate → Int) (w1 : Int) (cand : Candidate)
    (cover : List (Option Candidate)) :
    coverUnits cover
        = (cover.count (some cand) : Int) * cand.units
          + coverUnits (cover.filter (fun p => p != some cand)) ∧
    coverValue w w1 cover
        = (cover.count (some cand) : Int) * w cand
          + coverValue w w1 (cover.filter (fun p => p != some cand)) := by
  induction cover with
  | nil => simp [coverUnits, coverValue]
  | cons p l ih =>
    by_cases hp : p = some cand
    · subst hp
      simp only [coverUnits, coverValue, List.map_cons, List.sum_cons, List.count_cons_self,
        bne_self_eq_false, Bool.false_eq_true, not_false_eq_true, List.filter_cons_of_neg,
        packUnits, packValue] at ih ⊢
      push_cast
      constructor <;> linarith [ih.1, ih.2]
    · have hne : (p != some cand) = true := by simpa using hp
      have hne2 : ¬ (some cand = p) := fun h => hp h.symm
      simp only [coverUnits, coverValue, List.map_cons, List.sum_cons, hne,
        List.filter_cons_of_pos, List.count_cons, beq_iff_eq, hp, if_false,
        add_zero] at ih ⊢
      constructor <;> linarith [ih.1, ih.2]

theorem greedyValue_le_cover (w : Candidate → Int) (w1 : Int) (cs : List Candidate)
    (hpair : cs.Pairwise (fun a b => b.units ∣ a.units ∧ w a * b.units ≤ a.units * w b))
    (hcs : ∀ a ∈ cs, 0 < a.units ∧ w a ≤ a.units * w1)
    (cover : List (Option Candidate)) (hcover : ∀ a, some a ∈ cover → a ∈ cs) :
    greedyValue w w1 cs (coverUnits cover) ≤ coverValue w w1 cover := by
  induction cs generalizing cover with
  | nil =>
    have hall : ∀ p ∈ cover, p = none := by
      intro p hp
      cases p with
      | none => rfl
      | some a => exact absurd (hcover a hp) (List.not_mem_nil _)
    simp only [greedyValue]
    clear hcover
    induction cover with
    | nil => simp [coverUnits, coverValue]
    | cons p l ih =>
      have hp := hall p (List.mem_cons_self _ _)
      subst hp
      have := ih (fun q hq => hall q (List.mem_cons_of_mem _ hq))
      simp only [coverUnits, coverValue, List.map_cons, List.sum_cons, packUnits,
        packValue] at this ⊢
      linarith
  | cons cand rest ih =>
    obtain ⟨hhd, hrestpair⟩ := List.pairwise_cons.mp hpair
    have hc := (hcs cand (List.mem_cons_self _ _))
    have hrestcs : ∀ a ∈ rest, 0 < a.units ∧ w a ≤ a.units * w1 :=
      fun a ha => hcs a (List.mem_cons_of_mem _ ha)
    have hcover2 : ∀ a, some a ∈ cover.filter (fun p => p != some cand) → a ∈ rest := by
      intro a ha
      rw [List.mem_filter] at ha
      have hne : a ≠ cand := by
        intro h; subst h; simp at ha
      rcases List.mem_cons.mp (hcover a ha.1) with h | h
      · exact absurd h hne
      · exact h
    have hIH := ih hrestpair hrestcs _ hcover2
    obtain ⟨hu, hv⟩ := cover_split w w1 cand cover
    have hn2 : 0 ≤ coverUnits (cover.filter (fun p => p != some cand)) :=
      coverUnits_nonneg rest (fun a ha => (hrestcs a ha).1) _ hcover2
    set n := coverUnits cover with hn
    set n2 := coverUnits (cover.filter (fun p => p != some cand)) with hn2def
    set m : Int := (cover.count (some cand) : Int) with hm
    have hm0 : 0 ≤ m := by rw [hm]; exact Int.natCast_nonneg _
    have hmq : m ≤ n / cand.units := by
      apply Int.le_ediv_of_mul_le hc.1
      linarith
    have hdecomp : n2 = n % cand.units + (n / cand.units - m) * cand.units := by
      have := Int.emod_add_ediv n cand.units
      linarith [mul_comm cand.units (n / cand.units)]
    have hL := greedyValue_add_mul w w1 rest cand (n % cand.units) (n / cand.units - m)
      (by omega) (fun d hd => (hrestcs d hd).1)
      (by
        intro d hd
        cases rest with
        | nil => simp at hd
        | cons d2 ds =>
          simp only [List.head?_cons, Option.mem_def, Option.some.injEq] at hd
          subst hd
          exact hhd _ (List.mem_cons_self _ _))
      (fun _ => hc.2)
    rw [← hdecomp] at hL
    simp only [greedyValue]
    rw [hv]
    linarith
theorem quantityOfLines_append (l1 l2 : List Item) :
    quantityOfLines (l1 ++ l2) = quantityOfLines l1 + quantityOfLines l2 := by
  simp [quantityOfLines]

theorem greedyStep_value (fresh : Nat → String) (beerName subtype : String)
    (st : Int × Totals) (cand : Candidate) (h1 : 1 < cand.units) (h0 : 0 ≤ st.1) (w1 : Int) :
    0 ≤ (greedyStep fresh beerName subtype st cand).1 ∧
    (∀ rest, (greedyStep fresh beerName subtype st cand).2.totalUsd
        + greedyValue Candidate.priceUsd w1 rest (greedyStep fresh beerName subtype st cand).1
      = st.2.totalUsd + greedyValue Candidate.priceUsd w1 (cand :: rest) st.1) ∧
    (∀ rest, quantityOfLines (greedyStep fresh beerName subtype st cand).2.optimizedItems
        + greedyValue (fun _ => 1) 1 rest (greedyStep fresh beerName subtype st cand).1
      = quantityOfLines st.2.optimizedItems + greedyValue (fun _ => 1) 1 (cand :: rest) st.1) := by
  unfold greedyStep
  simp only
  by_cases hge : st.1 ≥ cand.units
  · have hcount : st.1 / cand.units > 0 := by
      have : (1 : Int) ≤ st.1 / cand.units :=
        Int.le_ediv_of_mul_le (by omega) (by omega)
      omega
    simp only [hge, hcount, if_true]
    refine ⟨Int.emod_nonneg _ (by omega), ?_, ?_⟩
    · intro rest
      simp only [greedyValue]
      ring
    · intro rest
      simp only [greedyValue, quantityOfLines_append]
      simp only [quantityOfLines, optimizedLine, orZero, List.map_cons, List.map_nil,
        List.sum_cons, List.sum_nil]
      ring
  · have hlt : st.1 < cand.units := by omega
    simp only [hge, if_false]
    refine ⟨h0, ?_, ?_⟩
    · intro rest
      simp only [greedyValue, Int.ediv_eq_zero_of_lt h0 hlt, Int.emod_eq_of_lt h0 hlt]
      ring
    · intro rest
      simp only [greedyValue, Int.ediv_eq_zero_of_lt h0 hlt, Int.emod_eq_of_lt h0 hlt]
      ring

theorem greedy_value (fresh : Nat → String) (beerName subtype : String) (w1 : Int)
    (cs : List Candidate) (hcs : ∀ cand ∈ cs, 1 < cand.units)
    (st : Int × Totals) (h0 : 0 ≤ st.1) :
    0 ≤ (cs.foldl (greedyStep fresh beerName subtype) st).1 ∧
    (cs.foldl (greedyStep fresh beerName subtype) st).2.totalUsd
        + (cs.foldl (greedyStep fresh beerName subtype) st).1 * w1
      = st.2.totalUsd + greedyValue Candidate.priceUsd w1 cs st.1 ∧
    quantityOfLines (cs.foldl (greedyStep fresh beerName subtype) st).2.optimizedItems
        + (cs.foldl (greedyStep fresh beerName subtype) st).1
      = quantityOfLines st.2.optimizedItems + greedyValue (fun _ => 1) 1 cs st.1 := by
  induction cs generalizing st with
  | nil => simp [greedyValue, h0]
  | cons cand rest ih =>
    simp only [List.foldl_cons]
    obtain ⟨hs0, hsu, hsq⟩ := greedyStep_value fresh beerName subtype st cand
      (hcs cand (List.mem_cons_self _ _)) h0 w1
    obtain ⟨hr0, hru, hrq⟩ := ih (fun x hx => hcs x (List.mem_cons_of_mem _ hx)) _ hs0
    exact ⟨hr0, hru.trans (hsu rest), hrq.trans (hsq rest)⟩

theorem optimizeBucket_value (c : Catalog) (fresh : Nat → String) (acc : Totals)
    (key : String) (totalUnits : Int) (h0 : 0 ≤ totalUnits) :
    (optimizeBucket c fresh acc key totalUnits).totalUsd
      = acc.totalUsd + greedyValue Candidate.priceUsd
          (getPrice c (splitKey key).1 (some "Unidad") (splitKey key).2 "local")
          (sortCandidates (candidatesFor c (splitKey key).1 (splitKey key).2)) totalUnits ∧
    quantityOfLines (optimizeBucket c fresh acc key totalUnits).optimizedItems
      = quantityOfLines acc.optimizedItems + greedyValue (fun _ => 1) 1
          (sortCandidates (candidatesFor c (splitKey key).1 (splitKey key).2)) totalUnits := by
  obtain ⟨hr0, hru, hrq⟩ := greedy_value fresh (splitKey key).1 (splitKey key).2
    (getPrice c (splitKey key).1 (some "Unidad") (splitKey key).2 "local")
    (sortCandidates (candidatesFor c (splitKey key).1 (splitKey key).2))
    (fun cand hc => (sortCandidates_valid c _ _ cand hc).2.1) (totalUnits, acc) h0
  unfold optimizeBucket
  simp only at hr0 hru hrq ⊢
  split
  · refine ⟨hru, ?_⟩
    simp only [quantityOfLines_append]
    simp only [quantityOfLines, optimizedLine, orZero, List.map_cons, List.map_nil,
      List.sum_cons, List.sum_nil] at hrq ⊢
    linarith
  · rename_i hneg
    have hz : (List.foldl (greedyStep fresh (splitKey key).1 (splitKey key).2) (totalUnits, acc)
        (sortCandidates (candidatesFor c (splitKey key).1 (splitKey key).2))).1 = 0 := by
      omega
    rw [hz] at hru hrq
    constructor <;> linarith
theorem sortCandidates_sorted (l : List Candidate) :
    (sortCandidates l).Pairwise (fun a b => a.units ≥ b.units) := by
  haveI : IsTotal Candidate (fun a b => a.units ≥ b.units) :=
    ⟨fun a b => le_total b.units a.units⟩
  haveI : IsTrans Candidate (fun a b => a.units ≥ b.units) :=
    ⟨fun a b d hab hbd => le_trans hbd hab⟩
  exact List.sorted_insertionSort (fun a b : Candidate => a.units ≥ b.units) l

theorem mem_sortCandidates (l : List Candidate) (a : Candidate) :
    a ∈ sortCandidates l ↔ a ∈ l :=
  (List.perm_insertionSort _ l).mem_iff

theorem coverValue_one (cover : List (Option Candidate)) :
    coverValue (fun _ => 1) 1 cover = (cover.length : Int) := by
  induction cover with
  | nil => simp [coverValue]
  | cons p l ih =>
    simp only [coverValue, List.map_cons, List.sum_cons, List.length_cons] at ih ⊢
    rw [ih]
    cases p <;> simp [packValue] <;> ring

/-- Claim C6 (greedy optimality on divisor-friendly hierarchies): `optimizeBucket` is the
body `calculateOrderTotal` runs for each bucket, appending the bucket's lines to those
emitted so far (`acc`). When the bucket's valid candidate pack sizes form a divisibility
chain, the quantities of the lines it appends, `Unidad` remainder included, add up to no
more than the number of elements of any cover of the bucket by valid candidate packs and
single units. -/
theorem greedy_min_item_count (c : Catalog) (fresh : Nat → String) (acc : Totals)
    (key : String) (totalUnits : Int)
    (hchain : ∀ a ∈ bucketCandidates c key, ∀ b ∈ bucketCandidates c key,
      b.units ≤ a.units → b.units ∣ a.units)
    (cover : List (Option Candidate)) (hcover : IsBucketCover c key totalUnits cover) :
    quantityOfLines (optimizeBucket c fresh acc key totalUnits).optimizedItems
      ≤ quantityOfLines acc.optimizedItems + (cover.length : Int) := by
  obtain ⟨hmem, hunits⟩ := hcover
  unfold bucketCandidates at hchain hmem
  have hvalid := candidatesFor_valid c (splitKey key).1 (splitKey key).2
  have hcover2 : ∀ a, some a ∈ cover →
      a ∈ sortCandidates (candidatesFor c (splitKey key).1 (splitKey key).2) :=
    fun a ha => (mem_sortCandidates _ a).mpr (hmem a ha)
  have hpos : ∀ a ∈ sortCandidates (candidatesFor c (splitKey key).1 (splitKey key).2),
      0 < a.units ∧ (fun _ => (1 : Int)) a ≤ a.units * 1 := by
    intro a ha
    have := (hvalid a ((mem_sortCandidates _ a).mp ha)).2.1
    refine ⟨by omega, ?_⟩
    show (1 : Int) ≤ a.units * 1
    omega
  have h0 : 0 ≤ totalUnits := by
    rw [← hunits]
    exact coverUnits_nonneg _ (fun a ha => (hpos a ha).1) cover hcover2
  have hpair : (sortCandidates (candidatesFor c (splitKey key).1 (splitKey key).2)).Pairwise
      (fun a b => b.units ∣ a.units ∧
        (fun _ => (1 : Int)) a * b.units ≤ a.units * (fun _ => (1 : Int)) b) := by
    refine List.Pairwise.imp_of_mem ?_ (sortCandidates_sorted _)
    intro a b ha hb hab
    refine ⟨hchain a ((mem_sortCandidates _ a).mp ha) b ((mem_sortCandidates _ b).mp hb) hab, ?_⟩
    show (1 : Int) * b.units ≤ a.units * 1
    have : b.units ≤ a.units := hab
    omega
  have hmain := greedyValue_le_cover (fun _ => 1) 1 _ hpair hpos cover hcover2
  rw [coverValue_one, hunits] at hmain
  rw [(optimizeBucket_value c fresh acc key totalUnits h0).2]
  linarith
theorem bucket_min_cost (c : Catalog) (fresh : Nat → String) (acc : Totals)
    (key : String) (totalUnits : Int)
    (hchain : ∀ a ∈ bucketCandidates c key, ∀ b ∈ bucketCandidates c key,
      b.units ≤ a.units → b.units ∣ a.units ∧ a.priceUsd * b.units ≤ a.units * b.priceUsd)
    (hunit : ∀ a ∈ bucketCandidates c key, a.priceUsd ≤ a.units * bucketUnitPrice c key)
    (cover : List (Option Candidate)) (hcover : IsBucketCover c key totalUnits cover) :
    (optimizeBucket c fresh acc key totalUnits).totalUsd
      ≤ acc.totalUsd + coverCostUsd c key cover := by
  obtain ⟨hmem, hunits⟩ := hcover
  unfold bucketCandidates at hchain hunit hmem
  have hvalid := candidatesFor_valid c (splitKey key).1 (splitKey key).2
  have hcover2 : ∀ a, some a ∈ cover →
      a ∈ sortCandidates (candidatesFor c (splitKey key).1 (splitKey key).2) :=
    fun a ha => (mem_sortCandidates _ a).mpr (hmem a ha)
  have hpos : ∀ a ∈ sortCandidates (candidatesFor c (splitKey key).1 (splitKey key).2),
      0 < a.units ∧ a.priceUsd ≤ a.units * bucketUnitPrice c key := by
    intro a ha
    have hm := (mem_sortCandidates _ a).mp ha
    have := (hvalid a hm).2.1
    exact ⟨by omega, hunit a hm⟩
  have h0 : 0 ≤ totalUnits := by
    rw [← hunits]
    exact coverUnits_nonneg _ (fun a ha => (hpos a ha).1) cover hcover2
  have hpair : (sortCandidates (candidatesFor c (splitKey key).1 (splitKey key).2)).Pairwise
      (fun a b => b.units ∣ a.units ∧ a.priceUsd * b.units ≤ a.units * b.priceUsd) := by
    refine List.Pairwise.imp_of_mem ?_ (sortCandidates_sorted _)
    intro a b ha hb hab
    exact hchain a ((mem_sortCandidates _ a).mp ha) b ((mem_sortCandidates _ b).mp hb) hab
  have hmain := greedyValue_le_cover Candidate.priceUsd (bucketUnitPrice c key) _ hpair hpos
    cover hcover2
  rw [hunits] at hmain
  rw [(optimizeBucket_value c fresh acc key totalUnits h0).1]
  unfold coverCostUsd
  unfold bucketUnitPrice at hmain ⊢
  linarith

theorem buckets_min_cost (c : Catalog) (fresh : Nat → String) (m : List (String × Int))
    (covers : List (List (Option Candidate)))
    (hcovers : List.Forall₂ (fun kv cover => IsBucketCover c kv.1 kv.2 cover) m covers)
    (hchain : ∀ kv ∈ m, ∀ a ∈ bucketCandidates c kv.1, ∀ b ∈ bucketCandidates c kv.1,
      b.units ≤ a.units → b.units ∣ a.units ∧ a.priceUsd * b.units ≤ a.units * b.priceUsd)
    (hunit : ∀ kv ∈ m, ∀ a ∈ bucketCandidates c kv.1,
      a.priceUsd ≤ a.units * bucketUnitPrice c kv.1)
    (acc : Totals) :
    (m.foldl (fun a kv => optimizeBucket c fresh a kv.1 kv.2) acc).totalUsd
      ≤ acc.totalUsd + coversCostUsd c m covers := by
  induction hcovers generalizing acc with
  | nil => simp [coversCostUsd]
  | @cons kv cover m covers hhead _ ih =>
    simp only [List.foldl_cons, coversCostUsd]
    have h1 := bucket_min_cost c fresh acc kv.1 kv.2 (hchain kv (List.mem_cons_self _ _))
      (hunit kv (List.mem_cons_self _ _)) cover hhead
    have h2 := ih (fun x hx => hchain x (List.mem_cons_of_mem _ hx))
      (fun x hx => hunit x (List.mem_cons_of_mem _ hx)) (optimizeBucket c fresh acc kv.1 kv.2)
    linarith

/-- Claim C7, amended (minimal cost on chains with non-increasing unit price): when in
every bucket the valid candidate pack sizes form a divisibility chain, no pack costs more
per unit than a valid pack of smaller or equal size, and no pack costs more than its unit
count at the local `Unidad` price, the `totalUsd` of `calculateOrderTotal(items, 'Local')`
is at most the cost of every family of exact covers of the buckets. -/
theorem greedy_min_cost_on_chains (c : Catalog) (fresh : Nat → String) (items : List Item)
    (hchain : ∀ kv ∈ localConsumptionMap items,
      ∀ a ∈ bucketCandidates c kv.1, ∀ b ∈ bucketCandidates c kv.1,
        b.units ≤ a.units → b.units ∣ a.units ∧ a.priceUsd * b.units ≤ a.units * b.priceUsd)
    (hunit : ∀ kv ∈ localConsumptionMap items, ∀ a ∈ bucketCandidates c kv.1,
      a.priceUsd ≤ a.units * bucketUnitPrice c kv.1)
    (covers : List (List (Option Candidate)))
    (hcovers : List.Forall₂ (fun kv cover => IsBucketCover c kv.1 kv.2 cover)
      (localConsumptionMap items) covers) :
    (calculateOrderTotal c fresh items "Local").totalUsd
      ≤ coversCostUsd c (localConsumptionMap items) covers := by
  rw [calculateOrderTotal_local]
  have := buckets_min_cost c fresh _ covers hcovers hchain hunit
    { totalBs := 0, totalUsd := 0, details := [], optimizedItems := [] }
  simpa using this
theorem mem_uniq (l : List String) (a : String) (h : a ∈ uniq l) : a ∈ l := by
  induction l with
  | nil => simp [uniq] at h
  | cons b rest ih =>
    simp only [uniq, List.mem_cons, List.mem_filter] at h ⊢
    rcases h with h | h
    · exact Or.inl h
    · exact Or.inr (ih h.1)

theorem countSlots_single_aux (key sub : String) (slots : List (Option String))
    (h : ∀ sl ∈ slots, truthy sl = true → tpl sl ++ "_" ++ sub = key) (v : Int) :
    slots.foldl (fun acc slotBeer =>
      if truthy slotBeer then bump acc (tpl slotBeer ++ "_" ++ sub) else acc) [(key, v)]
      = [(key, v + ((slots.filter truthy).length : Int))] := by
  induction slots generalizing v with
  | nil => simp
  | cons a l ih =>
    simp only [List.foldl_cons]
    by_cases ha : truthy a = true
    · have hk := h a (List.mem_cons_self _ _) ha
      simp only [ha, if_true, hk, bump]
      rw [ih (fun sl hsl => h sl (List.mem_cons_of_mem _ hsl))]
      simp [ha]; ring
    · simp only [ha]
      rw [if_neg (by simp), ih (fun sl hsl => h sl (List.mem_cons_of_mem _ hsl))]
      simp [ha]

theorem countSlots_nil_aux (key sub : String) (slots : List (Option String))
    (h : ∀ sl ∈ slots, truthy sl = true → tpl sl ++ "_" ++ sub = key) :
    slots.foldl (fun acc slotBeer =>
      if truthy slotBeer then bump acc (tpl slotBeer ++ "_" ++ sub) else acc) []
      = if (slots.filter truthy).length = 0 then []
        else [(key, ((slots.filter truthy).length : Int))] := by
  induction slots with
  | nil => simp
  | cons a l ih =>
    simp only [List.foldl_cons]
    by_cases ha : truthy a = true
    · have hk := h a (List.mem_cons_self _ _) ha
      simp only [ha, if_true, hk, bump]
      rw [countSlots_single_aux key sub l (fun sl hsl => h sl (List.mem_cons_of_mem _ hsl))]
      simp [ha]; ring
    · simp only [ha]
      rw [if_neg (by simp), ih (fun sl hsl => h sl (List.mem_cons_of_mem _ hsl))]
      simp [ha]

theorem populatedSlots_nonneg (items : List Item) : 0 ≤ populatedSlots items := by
  induction items with
  | nil => simp [populatedSlots]
  | cons it l ih =>
    simp only [populatedSlots, List.map_cons, List.sum_cons] at ih ⊢
    omega

theorem localConsumptionMap_single (key : String) (items : List Item)
    (h : ∀ item ∈ items, ∀ sl ∈ item.slots.getD [], truthy sl = true →
      tpl sl ++ "_" ++ item.subtype = key) :
    (∀ v, items.foldl countSlots [(key, v)] = [(key, v + populatedSlots items)]) ∧
    items.foldl countSlots []
      = if populatedSlots items = 0 then [] else [(key, populatedSlots items)] := by
  induction items with
  | nil => simp [populatedSlots]
  | cons it l ih =>
    obtain ⟨ih1, ih2⟩ := ih (fun x hx => h x (List.mem_cons_of_mem _ hx))
    have hit := h it (List.mem_cons_self _ _)
    have hl := populatedSlots_nonneg l
    constructor
    · intro v
      simp only [List.foldl_cons, countSlots]
      rw [countSlots_single_aux key it.subtype _ hit, ih1]
      simp only [populatedSlots, List.map_cons, List.sum_cons]
      rw [add_assoc]
    · simp only [List.foldl_cons, countSlots]
      rw [countSlots_nil_aux key it.subtype _ hit]
      simp only [populatedSlots, List.map_cons, List.sum_cons] at hl ⊢
      by_cases h0 : ((it.slots.getD []).filter truthy).length = 0
      · simp only [h0, if_true, ih2]
        simp [populatedSlots]
      · simp only [h0, if_false, ih1]
        have : ¬ ((((it.slots.getD []).filter truthy).length : Int)
          + (l.map (fun item => (((item.slots.getD []).filter truthy).length : Int))).sum = 0) := by
          omega
        rw [if_neg this]
        rfl
theorem candidates_polar (c : Catalog)
    (hCaja : getUnitsPerEmission c (some "Caja") "Botella" = 36)
    (hMedia : getUnitsPerEmission c (some "Media Caja") "Botella" = 18)
    (pCaja : getPrice c "Polar Pilsen" (some "Caja") "Botella" "local" = 30)
    (pMedia : getPrice c "Polar Pilsen" (some "Media Caja") "Botella" "local" = 16)
    (hothers : ∀ em ∈ c.emissionOptions, em ≠ "Caja" → em ≠ "Media Caja" →
      ¬ (1 < getUnitsPerEmission c (some em) "Botella" ∧
        0 < getPrice c "Polar Pilsen" (some em) "Botella" "local")) :
    candidatesFor c "Polar Pilsen" "Botella"
      = [{ name := "Caja", units := 36, priceBs := 30 * c.bcv, priceUsd := 30 },
         { name := "Media Caja", units := 18, priceBs := 16 * c.bcv, priceUsd := 16 }] := by
  have hlata : includesLower "Botella" "lata" = false := by decide
  have hne : ("Media Caja" != "Caja") = true := by decide
  have hnames : allEmissionNames c "Botella"
      = "Caja" :: "Media Caja" ::
        ((uniq c.emissionOptions).filter (fun b => b != "Media Caja")).filter
          (fun b => b != "Caja") := by
    simp [allEmissionNames, hlata, uniq, List.filter_cons, hne]
  unfold candidatesFor
  rw [hnames]
  rw [List.filterMap_cons_some (b := { name := "Caja", units := 36, priceBs := 30 * c.bcv, priceUsd := 30 })
    (by simp [hCaja, pCaja, getBsPrice])]
  rw [List.filterMap_cons_some (b := { name := "Media Caja", units := 18, priceBs := 16 * c.bcv, priceUsd := 16 })
    (by simp [hMedia, pMedia, getBsPrice])]
  congr 2
  rw [List.filterMap_eq_nil_iff]
  intro em hem
  simp only [List.mem_filter, bne_iff_ne, ne_eq] at hem
  obtain ⟨⟨hmem, hm⟩, hc⟩ := hem
  have := hothers em (mem_uniq _ _ hmem) hc hm
  simp only [gt_iff_lt]
  rw [if_neg this]

/-- Claim C5, amended (optimizer example): with `Caja` = 36 units at 30, `Media Caja` = 18
units at 16 and `Unidad` at 1 (local rate) for `(Polar Pilsen, Botella)`, no other valid
pack, and 41 populated slots all holding `Polar Pilsen` with subtype `Botella`,
`calculateOrderTotal(items, 'Local')` emits exactly 1 x `Caja` (30) and 5 x `Unidad` (5),
and `totalUsd = 35`: the 5 units left after the `Caja` do not fill a `Media Caja`. -/
theorem optimizer_example_41 (c : Catalog) (fresh : Nat → String) (items : List Item)
    (hCaja : getUnitsPerEmission c (some "Caja") "Botella" = 36)
    (hMedia : getUnitsPerEmission c (some "Media Caja") "Botella" = 18)
    (pCaja : getPrice c "Polar Pilsen" (some "Caja") "Botella" "local" = 30)
    (pMedia : getPrice c "Polar Pilsen" (some "Media Caja") "Botella" "local" = 16)
    (pUnidad : getPrice c "Polar Pilsen" (some "Unidad") "Botella" "local" = 1)
    (hothers : ∀ em ∈ c.emissionOptions, em ≠ "Caja" → em ≠ "Media Caja" →
      ¬ (1 < getUnitsPerEmission c (some em) "Botella" ∧
        0 < getPrice c "Polar Pilsen" (some em) "Botella" "local"))
    (hslots : ∀ item ∈ items, ∀ sl ∈ item.slots.getD [], truthy sl = true →
      sl = some "Polar Pilsen" ∧ item.subtype = "Botella")
    (hcount : populatedSlots items = 41) :
    (calculateOrderTotal c fresh items "Local").optimizedItems.map
        (fun l => (l.name, l.subtype, l.emission, l.quantity, l.totalPriceUsd))
      = [("Polar Pilsen", "Botella", some "Caja", some 1, some 30),
         ("Polar Pilsen", "Botella", some "Unidad", some 5, some 5)] ∧
    (calculateOrderTotal c fresh items "Local").totalUsd = 35 := by
  have hmap : localConsumptionMap items = [("Polar Pilsen_Botella", 41)] := by
    have h := (localConsumptionMap_single "Polar Pilsen_Botella" items (by
      intro item hi sl hsl ht
      obtain ⟨h1, h2⟩ := hslots item hi sl hsl ht
      rw [h1, h2]
      decide)).2
    rw [hcount] at h
    simpa [localConsumptionMap] using h
  have hsplit : splitKey "Polar Pilsen_Botella" = ("Polar Pilsen", "Botella") := by decide
  rw [calculateOrderTotal_local, hmap]
  simp only [List.foldl_cons, List.foldl_nil, optimizeBucket, hsplit,
    candidates_polar c hCaja hMedia pCaja pMedia hothers, sortCandidates]
  simp [List.insertionSort, List.orderedInsert, greedyStep, optimizedLine, pUnidad, getBsPrice]
theorem writeSlot_get (slots : List (Option String)) (j : Nat) (x : Option String) :
    (writeSlot slots j x)[j]? = some x := by
  unfold writeSlot
  split
  · rename_i h
    simp [List.getElem?_set, h]
  · rename_i h
    have hlen : (slots ++ List.replicate (j - slots.length) none).length = j := by
      simp; omega
    rw [List.getElem?_append_right (by omega)]
    simp [hlen]

theorem updateSlotInOrder_id (orderId : String) (i j : Nat) (x : Option String)
    (o o1 : Order) (h : updateSlotInOrder orderId i j x o = some o1) :
    o1.id = o.id ∧ o1.type = o.type := by
  unfold updateSlotInOrder at h
  split at h
  · simp only [Option.some.injEq] at h; subst h; exact ⟨rfl, rfl⟩
  · split at h
    · simp at h
    · simp only [Option.some.injEq] at h; subst h; exact ⟨rfl, rfl⟩

theorem mapOrders_find (orderId : String) (f : Order → Option Order)
    (hid : ∀ o o1, f o = some o1 → o1.id = o.id)
    (l l1 : List Order) (h : mapOrders f l = some l1) (order : Order)
    (hfind : l.find? (fun o => o.id == orderId) = some order) :
    ∃ order1, f order = some order1 ∧ l1.find? (fun o => o.id == orderId) = some order1 := by
  induction l generalizing l1 with
  | nil => simp at hfind
  | cons o rest ih =>
    simp only [mapOrders] at h
    cases hfo : f o with
    | none => simp [hfo] at h
    | some o1 =>
      simp only [hfo] at h
      cases hrest : mapOrders f rest with
      | none => simp [hrest] at h
      | some rest1 =>
        simp only [hrest, Option.some.injEq] at h
        subst h
        have hid1 := hid o o1 hfo
        by_cases ho : (o.id == orderId) = true
        · have ho1 : (o1.id == orderId) = true := by rw [hid1]; exact ho
          simp only [List.find?_cons, ho, Option.some.injEq] at hfind
          subst hfind
          exact ⟨o1, hfo, by simp only [List.find?_cons, ho1]⟩
        · have ho0 : (o.id == orderId) = false := by simpa using ho
          have ho1 : (o1.id == orderId) = false := by rw [hid1]; exact ho0
          simp only [List.find?_cons, ho0] at hfind
          obtain ⟨order1, h1, h2⟩ := ih rest1 hrest hfind
          exact ⟨order1, h1, by simp only [List.find?_cons, ho1]; exact h2⟩

theorem step1_toGo (c : Catalog) (items : List Item) (st : Totals × List (String × Int)) :
    items.foldl (fun st item => (priceToGo c st.1 item, st.2)) st
      = ({ totalBs := st.1.totalBs + (items.map (toGoBs c)).sum
           totalUsd := st.1.totalUsd + (items.map (toGoUsd c)).sum
           details := st.1.details
           optimizedItems := st.1.optimizedItems }, st.2) := by
  induction items generalizing st with
  | nil => simp
  | cons it l ih =>
    simp only [List.foldl_cons]
    rw [ih]
    simp only [priceToGo, toGoBs, toGoUsd, List.map_cons, List.sum_cons]
    split <;> simp <;> constructor <;> ring

theorem calculateOrderTotal_toGo (c : Catalog) (fresh : Nat → String) (items : List Item)
    (type : String) (h : type ≠ "Local") :
    calculateOrderTotal c fresh items type
      = { totalBs := (items.map (toGoBs c)).sum
          totalUsd := (items.map (toGoUsd c)).sum
          details := []
          optimizedItems := items } := by
  unfold calculateOrderTotal
  have hb : (type == "Local") = false := by simpa using h
  simp only [hb]
  simp [step1_toGo]

theorem closeItemStock_local (c : Catalog) (inventory : Inventory) (items : List Item)
    (inv : Inventory) :
    items.foldl (closeItemStock c inventory "Local") inv = inv := by
  induction items generalizing inv with
  | nil => rfl
  | cons it l ih =>
    simp only [List.foldl_cons]
    rw [show closeItemStock c inventory "Local" inv it = inv from by
      have h : (("Local" : String) == "Local") = true := by decide
      simp [closeItemStock, h]]
    exact ih inv

theorem find_map_keeps_id (orderId : String) (f : Order → Order)
    (hid : ∀ o, (f o).id = o.id) (l : List Order) :
    (l.map f).find? (fun o => o.id == orderId)
      = (l.find? (fun o => o.id == orderId)).map f := by
  induction l with
  | nil => rfl
  | cons o rest ih =>
    simp only [List.map_cons, List.find?_cons, hid]
    cases h : (o.id == orderId) <;> simp [ih]

/-- Claim C9, amended (re-closing a `PAID` order): after a first `closeOrder` has set the
order to `PAID`, a second `closeOrder` on the same id leaves the whole inventory unchanged
when the order is `Local`, and leaves the status, items, `totalAmountUsd` and
`totalAmountBs` of every order unchanged when the order is not `Local`. -/
theorem reclose_paid_order (c : Catalog) (now1 now2 : Nat) (fresh1 fresh2 : Nat → String)
    (s : State) (orderId : String) (pm1 pm2 : Option String) (ref1 ref2 : String)
    (order : Order) (hfind : s.orders.find? (fun o => o.id == orderId) = some order) :
    let s1 := closeOrder c now1 fresh1 s orderId pm1 ref1
    let s2 := closeOrder c now2 fresh2 s1 orderId pm2 ref2
    (s1.orders.find? (fun o => o.id == orderId)).map Order.status = some "PAID" ∧
    (order.type = "Local" →
      ∀ product subtype,
        s2.inventory (invKey product subtype) = s1.inventory (invKey product subtype)) ∧
    (order.type ≠ "Local" → s2.orders.map closedView = s1.orders.map closedView) := by
  intro s1 s2
  have hoid : order.id = orderId := by
    have := List.find?_some hfind
    simpa using this
  have hs1 : s1 = State.mk (s.orders.map (fun o =>
        if o.id = orderId
        then paidOrder o now1 pm1 ref1 (calculateOrderTotal c fresh1 order.items order.type)
        else o))
      (order.items.foldl (closeItemStock c s.inventory order.type) s.inventory) := by
    show closeOrder c now1 fresh1 s orderId pm1 ref1 = _
    unfold closeOrder
    simp only [hfind]
  have hfind1 : s1.orders.find? (fun o => o.id == orderId)
      = some (paidOrder order now1 pm1 ref1
          (calculateOrderTotal c fresh1 order.items order.type)) := by
    rw [hs1]
    simp only
    rw [find_map_keeps_id orderId _ (by intro o; split <;> rfl), hfind]
    simp [hoid]
  have hptype : ∀ (o : Order) n pm r t, (paidOrder o n pm r t).type = o.type := fun _ _ _ _ _ => rfl
  have hpitems : ∀ (o : Order) n pm r t, (paidOrder o n pm r t).items = t.optimizedItems :=
    fun _ _ _ _ _ => rfl
  refine ⟨by rw [hfind1]; rfl, ?_, ?_⟩
  · intro hlocal product subtype
    show (closeOrder c now2 fresh2 s1 orderId pm2 ref2).inventory _ = _
    unfold closeOrder
    simp only [hfind1, hptype, hlocal, closeItemStock_local]
  · intro hnl
    show (closeOrder c now2 fresh2 s1 orderId pm2 ref2).orders.map closedView = _
    unfold closeOrder
    simp only [hfind1, hptype, hpitems]
    rw [hs1]
    simp only [List.map_map, calculateOrderTotal_toGo c _ _ _ hnl]
    apply List.map_congr_left
    intro o _
    simp only [Function.comp]
    split <;> simp [closedView, paidOrder, *]
/-- Claim C1 (stock conservation), evaluated at a failing input: a standard `Caja` item
is added to a `Local` ticket (nothing is deducted, its slots are empty) and then removed;
`removeItemFromOrder` falls back to the product name and restores one unit, so the count
of `(Polar, Botella)` goes from 12 to 13. -/
theorem remove_after_add_creates_stock :
    (addItemToOrder dearCajaCatalog 1 shopState "t1" cajaItem).inventory (invKey "Polar" "Botella")
      = 12 ∧
    ((addItemToOrder dearCajaCatalog 1 shopState "t1" cajaItem).orders.map
      (fun o => o.items.map (fun i => (i.id, i.slots)))) = [[("i1", some [])]] ∧
    (removeItemFromOrder dearCajaCatalog (addItemToOrder dearCajaCatalog 1 shopState "t1" cajaItem)
      "t1" "i1").inventory (invKey "Polar" "Botella") = 13 := by
  decide

/-- Claim C2 (cancellation conservation), evaluated at a failing input: an open tab is
created on an empty inventory and cancelled with no item added; `cancelOrder` restores
one unit for the injected `Consumo` item, so `(Consumo, Botella)` goes from 0 to 1. -/
theorem cancel_of_fresh_tab_creates_stock :
    emptyState.inventory (invKey "Consumo" "Botella") = 0 ∧
    (cancelOrder polarCatalog
      (createOrder 5 1000 "Desconocido" emptyState "Ana" [] "Local" none "").2
      (createOrder 5 1000 "Desconocido" emptyState "Ana" [] "Local" none "").1.id).inventory
        (invKey "Consumo" "Botella") = 1 := by
  decide

/-- Claim C3 (slot reassignment idempotence), evaluated at a failing input: on an open
tab with 2 units of `(Polar, Botella)`, `Polar` is written at slot index 0 (one unit is
deducted, 2 to 1, and the slot holds `Polar`), then the same call is made again. The
second call restores the unit and deducts it again, but both new totals are computed from
the inventory of the same render, so the write of the deduction stands: the count goes
from 1 to 0 while the slot still holds one `Polar`. -/
theorem slot_reassign_same_content_loses_stock :
    (updateOrderItemSlot polarCatalog tabState "t1" 0 0 (some "Polar")).isReturned = true ∧
    (updateOrderItemSlot polarCatalog
      (updateOrderItemSlot polarCatalog tabState "t1" 0 0 (some "Polar")).state
      "t1" 0 0 (some "Polar")).isReturned = true ∧
    (updateOrderItemSlot polarCatalog tabState "t1" 0 0 (some "Polar")).state.inventory
      (invKey "Polar" "Botella") = 1 ∧
    (updateOrderItemSlot polarCatalog tabState "t1" 0 0 (some "Polar")).state.orders.map
      (fun o => o.items.map Item.slots) = [[some [some "Polar"]]] ∧
    (updateOrderItemSlot polarCatalog
      (updateOrderItemSlot polarCatalog tabState "t1" 0 0 (some "Polar")).state
      "t1" 0 0 (some "Polar")).state.inventory (invKey "Polar" "Botella") = 0 ∧
    (updateOrderItemSlot polarCatalog
      (updateOrderItemSlot polarCatalog tabState "t1" 0 0 (some "Polar")).state
      "t1" 0 0 (some "Polar")).state.orders.map
      (fun o => o.items.map Item.slots) = [[some [some "Polar"]]] := by
  decide

/-- Claim C10 (direct-sale deduction), evaluated at a failing input: two items, each one
`Caja` (36 units) of `Polar`, are sold directly from 80 units. Applying the two deductions
the claim lists one after the other leaves 8 units; `processDirectSale` computes both new
totals from the inventory of the same render, so the second write repeats the first and
44 units are left. -/
theorem direct_sale_two_items_deduct_once :
    counterState.inventory (invKey "Polar" "Botella") = 80 ∧
    directSaleDeductions [cajaItem, secondCaja]
      = [("Polar", some "Caja", "Botella", 1), ("Polar", some "Caja", "Botella", 1)] ∧
    applyDeductions polarCatalog counterState.inventory
      (directSaleDeductions [cajaItem, secondCaja]) (invKey "Polar" "Botella") = 8 ∧
    (processDirectSale polarCatalog 1 1000 "Ana" noIds counterState "Luis"
      [cajaItem, secondCaja] none "").2.inventory (invKey "Polar" "Botella") = 44 := by
  decide

/-- Claim C21 (stock effect of `closeOrder`), evaluated at a failing input: a take-away
ticket holds two items, each one `Caja` (36 units) of `Polar`, with 80 units in stock.
Applying the two deductions the claim lists one after the other leaves 8 units;
`closeOrder` computes both new totals from the inventory of the same render, so the second
write repeats the first and 44 units are left. -/
theorem closeOrder_two_items_deduct_once :
    twoCrateState.inventory (invKey "Polar" "Botella") = 80 ∧
    closeDeductions [cajaItem, secondCaja]
      = [("Polar", some "Caja", "Botella", 1), ("Polar", some "Caja", "Botella", 1)] ∧
    applyDeductions polarCatalog twoCrateState.inventory
      (closeDeductions [cajaItem, secondCaja]) (invKey "Polar" "Botella") = 8 ∧
    (closeOrder polarCatalog 1 noIds twoCrateState "t2" none "").inventory
      (invKey "Polar" "Botella") = 44 := by
  decide

/-- Claim C27 (slot-level stock conservation), evaluated at a failing input: a `Local`
ticket holds a `Caja` item whose slot 0 holds `Polar`, with 2 units of `(Polar, Botella)`
in stock, so stock plus slots is 3. Writing `Polar` at slot index 0 again returns, leaves
the slot holding `Polar` and the stock at 1: the restored unit is overwritten by the
deduction, both computed from the inventory of the same render, and stock plus slots
is 2. -/
theorem slot_rewrite_breaks_conservation :
    crateState.inventory (invKey "Polar" "Botella") = 2 ∧
    crateState.orders.map (fun o => orderKeyCount o (invKey "Polar" "Botella")) = [1] ∧
    (updateOrderItemSlot polarCatalog crateState "t1" 0 0 (some "Polar")).isReturned = true ∧
    (updateOrderItemSlot polarCatalog crateState "t1" 0 0 (some "Polar")).state.inventory
      (invKey "Polar" "Botella") = 1 ∧
    (updateOrderItemSlot polarCatalog crateState "t1" 0 0 (some "Polar")).state.orders.map
      (fun o => orderKeyCount o (invKey "Polar" "Botella")) = [1] := by
  decide

theorem returned_of_isReturned (o : Outcome) (h : o.isReturned = true) :
    o = .returned o.state := by
  cases o with
  | returned s => rfl
  | raised s => simp [Outcome.isReturned] at h

/-- Claim C5, counterexample: with the catalog of the example and 41 slots of
`Polar Pilsen`, the optimizer does not emit 1 x `Caja`, 1 x `Media Caja`, 5 x `Unidad` with
total 51 (those lines would stand for 59 units). -/
theorem optimizer_example_41_has_no_media_caja :
    ¬ ((calculateOrderTotal polarCatalog noIds [polarTab 41] "Local").optimizedItems.map
          (fun l => (l.emission, l.quantity, l.totalPriceUsd))
        = [(some "Caja", some 1, some 30), (some "Media Caja", some 1, some 16),
           (some "Unidad", some 5, some 5)] ∧
      (calculateOrderTotal polarCatalog noIds [polarTab 41] "Local").totalUsd = 51) := by
  decide

/-- Claim C5, witness of the amended statement at `polarCatalog` and one open tab. -/
theorem optimizer_example_41_witness :
    (calculateOrderTotal polarCatalog noIds [polarTab 41] "Local").optimizedItems.map
        (fun l => (l.name, l.subtype, l.emission, l.quantity, l.totalPriceUsd))
      = [("Polar Pilsen", "Botella", some "Caja", some 1, some 30),
         ("Polar Pilsen", "Botella", some "Unidad", some 5, some 5)] ∧
    (calculateOrderTotal polarCatalog noIds [polarTab 41] "Local").totalUsd = 35 :=
  optimizer_example_41 polarCatalog noIds [polarTab 41] (by decide) (by decide) (by decide)
    (by decide) (by decide) (by decide) (by decide) (by decide)

/-- Claim C6, witness: 59 units against the cover 3 x `Media Caja` + 5 single units. -/
theorem greedy_min_item_count_witness :
    quantityOfLines (optimizeBucket polarCatalog noIds noTotals "Polar Pilsen_Botella" 59).optimizedItems
      ≤ quantityOfLines noTotals.optimizedItems
        + (([some polarMedia, some polarMedia, some polarMedia, none, none, none, none, none] :
            List (Option Candidate)).length : Int) :=
  greedy_min_item_count polarCatalog noIds noTotals "Polar Pilsen_Botella" 59 (by decide)
    [some polarMedia, some polarMedia, some polarMedia, none, none, none, none, none]
    ⟨by
      intro a ha
      have : a = polarMedia := by simpa using ha
      subst this
      decide, by decide⟩

/-- Claim C7, counterexample: with a 12-unit `Caja` at 15 and `Unidad` at 1, twelve
consumed units are billed 15 by the optimizer while twelve single units cover the same
bucket for 12. -/
theorem greedy_is_not_min_cost :
    IsBucketCover dearCajaCatalog "Polar_Botella" 12 (List.replicate 12 none) ∧
    localConsumptionMap [dozenTab] = [("Polar_Botella", 12)] ∧
    (calculateOrderTotal dearCajaCatalog noIds [dozenTab] "Local").totalUsd = 15 ∧
    coversCostUsd dearCajaCatalog (localConsumptionMap [dozenTab]) [List.replicate 12 none] = 12 := by
  refine ⟨⟨?_, by decide⟩, by decide, by decide, by decide⟩
  intro a ha
  simp [List.replicate] at ha

/-- Claim C7, witness of the amended statement: 41 units against 2 x `Media Caja` + 5
single units. -/
theorem greedy_min_cost_on_chains_witness :
    (calculateOrderTotal polarCatalog noIds [polarTab 41] "Local").totalUsd
      ≤ coversCostUsd polarCatalog (localConsumptionMap [polarTab 41])
          [[some polarMedia, some polarMedia, none, none, none, none, none]] :=
  greedy_min_cost_on_chains polarCatalog noIds [polarTab 41] (by decide) (by decide)
    [[some polarMedia, some polarMedia, none, none, none, none, none]]
    (by
      have hm : localConsumptionMap [polarTab 41] = [("Polar Pilsen_Botella", 41)] := by decide
      rw [hm]
      refine List.Forall₂.cons ⟨?_, by decide⟩ List.Forall₂.nil
      intro a ha
      have : a = polarMedia := by simpa using ha
      subst this
      decide)

/-- Claim C9, counterexample: re-closing a `PAID` `Local` ticket replaces its one line and
total of 1 by no line and a total of 0; re-closing a `PAID` take-away ticket deducts its
`Caja` again (80, then 44, then 8 units). -/
theorem reclose_zeroes_local_totals :
    ((closeOrder polarCatalog 1 noIds localTabState "t1" none "").orders.map
        (fun o => (o.status, o.totalAmountUsd, o.items.length))) = [("PAID", some 1, 1)] ∧
    ((closeOrder polarCatalog 2 noIds
        (closeOrder polarCatalog 1 noIds localTabState "t1" none "") "t1" none "").orders.map
        (fun o => (o.status, o.totalAmountUsd, o.items.length))) = [("PAID", some 0, 0)] ∧
    (closeOrder polarCatalog 1 noIds toGoState "t2" none "").inventory (invKey "Polar" "Botella")
      = 44 ∧
    (closeOrder polarCatalog 2 noIds
        (closeOrder polarCatalog 1 noIds toGoState "t2" none "") "t2" none "").inventory
      (invKey "Polar" "Botella") = 8 := by
  decide

/-- Claim C9, witness of the amended statement on a take-away ticket. -/
theorem reclose_paid_order_witness :
    ((closeOrder polarCatalog 1 noIds toGoState "t2" none "").orders.find?
        (fun o => o.id == "t2")).map Order.status = some "PAID" ∧
    ((openTicket "t2" "Llevar" [cajaItem]).type = "Local" →
      ∀ product subtype,
        (closeOrder polarCatalog 2 noIds (closeOrder polarCatalog 1 noIds toGoState "t2" none "")
            "t2" none "").inventory (invKey product subtype)
          = (closeOrder polarCatalog 1 noIds toGoState "t2" none "").inventory
              (invKey product subtype)) ∧
    ((openTicket "t2" "Llevar" [cajaItem]).type ≠ "Local" →
      (closeOrder polarCatalog 2 noIds (closeOrder polarCatalog 1 noIds toGoState "t2" none "")
          "t2" none "").orders.map closedView
        = (closeOrder polarCatalog 1 noIds toGoState "t2" none "").orders.map closedView) :=
  reclose_paid_order polarCatalog 1 2 noIds noIds toGoState "t2" none none "" ""
    (openTicket "t2" "Llevar" [cajaItem]) (by decide)
/-- Claim C8, witness: the `Caja` line of the 41-unit example is a real pack line. -/
theorem optimizer_skip_rule_witness :
    optimizedLine "" "Polar Pilsen" "Botella" "Caja" 1 30 30
        ∈ (calculateOrderTotal polarCatalog noIds [polarTab 41] "Local").optimizedItems ∧
      ((optimizedLine "" "Polar Pilsen" "Botella" "Caja" 1 30 30).emission = some "Unidad" ∨
        (1 < getUnitsPerEmission polarCatalog
            (optimizedLine "" "Polar Pilsen" "Botella" "Caja" 1 30 30).emission
            (optimizedLine "" "Polar Pilsen" "Botella" "Caja" 1 30 30).subtype ∧
          0 < getPrice polarCatalog
            (optimizedLine "" "Polar Pilsen" "Botella" "Caja" 1 30 30).name
            (optimizedLine "" "Polar Pilsen" "Botella" "Caja" 1 30 30).emission
            (optimizedLine "" "Polar Pilsen" "Botella" "Caja" 1 30 30).subtype "local")) :=
  ⟨by decide,
    optimizer_skip_rule polarCatalog noIds [polarTab 41]
      (optimizedLine "" "Polar Pilsen" "Botella" "Caja" 1 30 30) (by decide)⟩
/-! ## Availability check, not-found and success of `addItemToOrder` -/

theorem find_id_eq (orders : List Order) (orderId : String) (order : Order)
    (hfind : orders.find? (fun o => o.id == orderId) = some order) : order.id = orderId := by
  have := List.find?_some hfind
  simpa using this

theorem find_none_of_absent (orders : List Order) (orderId : String)
    (h : ∀ o ∈ orders, o.id ≠ orderId) :
    orders.find? (fun o => o.id == orderId) = none := by
  rw [List.find?_eq_none]
  intro o ho
  simpa using h o ho

theorem checkStock_one_unit (c : Catalog) (inv : Inventory) (beer sub : String) :
    checkStock c inv beer (some "Unidad") sub 1 = decide (1 ≤ inv (invKey beer sub)) := by
  simp [checkStock, getUnits_unidad]

/-- Claim C11 (Variado single-unit check): for an existing order and a `Variado` item,
`addItemToOrder` appends the item to the order exactly when the inventory count of the
item's product name (`beerType || name`) and subtype is at least 1; the condition does
not mention the requested quantity or the item's emission. -/
theorem variado_single_unit_check (c : Catalog) (now : Nat) (s : State) (orderId : String)
    (item : Item) (order : Order)
    (hfind : s.orders.find? (fun o => o.id == orderId) = some order)
    (hvar : item.beerVariety = "Variado") :
    (1 ≤ s.inventory (invKey (beerNameOf item) item.subtype) ↔
      ((addItemToOrder c now s orderId item).orders.find? (fun o => o.id == orderId)).map
          Order.items
        = some (order.items ++ [storedItem now item
            (if order.type = "Local" then some [some (beerNameOf item)] else item.slots)])) := by
  have hoid := find_id_eq _ _ _ hfind
  unfold addItemToOrder
  simp only [hfind, hvar, if_true, checkStock_one_unit]
  by_cases hge : 1 ≤ s.inventory (invKey (beerNameOf item) item.subtype)
  · simp only [hge, decide_True, Bool.not_true, Bool.false_eq_true, if_false, true_iff]
    rw [find_map_keeps_id orderId _ (by intro o; split <;> rfl), hfind]
    simp only [Option.map_some', hoid, if_true, and_true]
    split <;> simp [storedItem, hvar]
  · simp only [hge, decide_False, Bool.not_false, if_true, false_iff, hfind, Option.map_some',
      Option.some.injEq]
    intro h
    have := congrArg List.length h
    simp at this
/-- Claim C12 (atomicity on insufficient stock): when the availability check of
`addItemToOrder` fails the call leaves the state as it was, and when
`updateOrderItemSlot` on a `Local` order is given a product name whose count for the
item's subtype is below 1 the call returns and leaves the state as it was. -/
theorem insufficient_stock_is_atomic (c : Catalog) (s : State) (orderId : String) :
    (∀ (now : Nat) (item : Item),
      checkStock c s.inventory (beerNameOf item)
          (if item.beerVariety = "Variado" then some "Unidad" else item.emission) item.subtype
          (if item.beerVariety = "Variado" then 1 else orOne item.quantity) = false →
      addItemToOrder c now s orderId item = s) ∧
    (∀ (itemIndex slotIndex : Nat) (X : String) (order : Order) (item : Item),
      s.orders.find? (fun o => o.id == orderId) = some order →
      order.items[itemIndex]? = some item →
      order.type = "Local" → X ≠ "" →
      s.inventory (invKey X item.subtype) < 1 →
      updateOrderItemSlot c s orderId itemIndex slotIndex (some X) = .returned s) := by
  constructor
  · intro now item hcheck
    unfold addItemToOrder
    cases hfind : s.orders.find? (fun o => o.id == orderId) with
    | none => rfl
    | some order => simp only [hcheck, Bool.not_false, if_true]
  · intro itemIndex slotIndex X order item hfind hitem hlocal hX hlow
    unfold updateOrderItemSlot
    simp only [hfind, hitem]
    have hcheck : checkStock c s.inventory X (some "Unidad") item.subtype 1 = false := by
      rw [checkStock_one_unit]
      simp only [decide_eq_false_iff_not, not_le]
      exact hlow
    have htr : truthy (some X) = true := by simpa [truthy] using hX
    simp [hlocal, htr, tpl, hcheck]

/-- Claim C13 (not-found is a silent no-op): for an order id that no order of the list
carries, `addItemToOrder`, `removeItemFromOrder`, `cancelOrder`, `closeOrder` and
`updateOrderItemSlot` leave the order list and the inventory unchanged; so does
`removeItemFromOrder` on an existing order for an item id that none of its items carries. -/
theorem not_found_is_noop (c : Catalog) (now : Nat) (fresh : Nat → String) (s : State)
    (orderId itemId : String) (item : Item) (itemIndex slotIndex : Nat)
    (content paymentMethod : Option String) (reference : String) :
    ((∀ o ∈ s.orders, o.id ≠ orderId) →
      addItemToOrder c now s orderId item = s ∧
      removeItemFromOrder c s orderId itemId = s ∧
      cancelOrder c s orderId = s ∧
      closeOrder c now fresh s orderId paymentMethod reference = s ∧
      updateOrderItemSlot c s orderId itemIndex slotIndex content = .returned s) ∧
    (∀ order, s.orders.find? (fun o => o.id == orderId) = some order →
      (∀ i ∈ order.items, i.id ≠ itemId) →
      removeItemFromOrder c s orderId itemId = s) := by
  constructor
  · intro h
    have hnone := find_none_of_absent s.orders orderId h
    refine ⟨?_, ?_, ?_, ?_, ?_⟩
    · unfold addItemToOrder; simp only [hnone]
    · unfold removeItemFromOrder; simp only [hnone]
    · unfold cancelOrder; simp only [hnone]
    · unfold closeOrder; simp only [hnone]
    · unfold updateOrderItemSlot; simp only [hnone]
  · intro order hfind hno
    have hitem : order.items.find? (fun i => i.id == itemId) = none := by
      rw [List.find?_eq_none]
      intro i hi
      simpa using hno i hi
    unfold removeItemFromOrder
    simp only [hfind, hitem]

/-- Claim C14 (no operation raises), evaluated at a failing input: on the existing
ticket `"t1"`, which has no item, `updateOrderItemSlot` at item index 0 reads
`item.slots` of `undefined` and throws; the state it leaves behind is unchanged. -/
theorem slot_update_on_missing_item_raises :
    (shopState.orders.find? (fun o => o.id == "t1")).map (fun o => o.items.length) = some 0 ∧
    (updateOrderItemSlot dearCajaCatalog shopState "t1" 0 0 (some "Polar")).isReturned = false ∧
    ((updateOrderItemSlot dearCajaCatalog shopState "t1" 0 0 (some "Polar")).state.orders
      = shopState.orders) ∧
    (updateOrderItemSlot dearCajaCatalog shopState "t1" 0 0 (some "Polar")).state.inventory
        (invKey "Polar" "Botella")
      = shopState.inventory (invKey "Polar" "Botella") := by
  decide
/-- Claim C20 (success postcondition of `addItemToOrder`): for an existing order and an
item whose availability check passes, every order with the given id gets the stored item
(quantity defaulted to 1) appended to its items and every other order is unchanged; on a
`Local` order a `Variado` item lowers the count of its product name and subtype by exactly
1 and is stored with slots `[name]`, a non-`Variado` item leaves the inventory unchanged
and is stored with slots `[]`; on an order that is not `Local` the inventory is unchanged. -/
theorem addItem_success (c : Catalog) (now : Nat) (s : State) (orderId : String)
    (item : Item) (order : Order)
    (hfind : s.orders.find? (fun o => o.id == orderId) = some order)
    (hcheck : checkStock c s.inventory (beerNameOf item)
        (if item.beerVariety = "Variado" then some "Unidad" else item.emission) item.subtype
        (if item.beerVariety = "Variado" then 1 else orOne item.quantity) = true) :
    (addItemToOrder c now s orderId item).orders
      = s.orders.map (fun o =>
          if o.id = orderId then
            { o with items := o.items ++ [storedItem now item
                (if order.type = "Local"
                 then (if item.beerVariety = "Variado" then some [some (beerNameOf item)]
                       else some [])
                 else item.slots)] }
          else o) ∧
    (order.type = "Local" → item.beerVariety = "Variado" →
      (addItemToOrder c now s orderId item).inventory (invKey (beerNameOf item) item.subtype)
          = s.inventory (invKey (beerNameOf item) item.subtype) - 1 ∧
      ∀ k, k ≠ invKey (beerNameOf item) item.subtype →
        (addItemToOrder c now s orderId item).inventory k = s.inventory k) ∧
    (order.type = "Local" → item.beerVariety ≠ "Variado" →
      (addItemToOrder c now s orderId item).inventory = s.inventory) ∧
    (order.type ≠ "Local" → (addItemToOrder c now s orderId item).inventory = s.inventory) := by
  unfold addItemToOrder
  simp only [hfind, hcheck, Bool.not_true, Bool.false_eq_true, if_false]
  refine ⟨?_, ?_, ?_, ?_⟩
  · apply List.map_congr_left
    intro o _
    by_cases ho : o.id = orderId
    · rw [if_pos ho, if_pos ho]
      by_cases hl : order.type = "Local" <;> by_cases hv : item.beerVariety = "Variado" <;>
        simp [hl, hv, storedItem]
    · rw [if_neg ho, if_neg ho]
  · intro hl hv
    simp only [hv, if_true] at hcheck
    rw [checkStock_one_unit] at hcheck
    simp only [decide_eq_true_eq] at hcheck
    simp only [hl, hv, and_self, if_true, deductStock, getUnits_unidad]
    constructor
    · rw [max_eq_right (by omega)]
      omega
    · intro k hk
      simp only [hk, if_false]
  · intro hl hv
    simp only [hl, hv, and_false, if_false]
  · intro hl
    simp only [hl, false_and, if_false]
/-! ## Stock ledger -/

/-- Claim C16 (exactness under pre-check): when `checkStock(product, pack, subtype, qty)`
holds, `deductStock` with the same arguments lowers the count of the key of
`(product, subtype)` by exactly `qty * getUnitsPerEmission(pack, subtype)`, with no
clamping; `addStock` with the same arguments, called on the inventory that leaves, then
gives back the original inventory; and at both steps every count under another key is
unchanged. -/
theorem exact_under_precheck (c : Catalog) (inv : Inventory) (product : String)
    (pack : Option String) (subtype : String) (qty : Int)
    (hcheck : checkStock c inv product pack subtype qty = true) :
    deductStock c inv product pack subtype qty inv (invKey product subtype)
      = inv (invKey product subtype) - qty * getUnitsPerEmission c pack subtype ∧
    (∀ k, k ≠ invKey product subtype →
      deductStock c inv product pack subtype qty inv k = inv k) ∧
    addStock c (deductStock c inv product pack subtype qty inv) product pack subtype qty
      (deductStock c inv product pack subtype qty inv) = inv ∧
    (∀ k, k ≠ invKey product subtype →
      addStock c (deductStock c inv product pack subtype qty inv) product pack subtype qty
          (deductStock c inv product pack subtype qty inv) k
        = deductStock c inv product pack subtype qty inv k) := by
  simp only [checkStock, decide_eq_true_eq, ge_iff_le] at hcheck
  have hmax : max 0 (inv (invKey product subtype) - qty * getUnitsPerEmission c pack subtype)
      = inv (invKey product subtype) - qty * getUnitsPerEmission c pack subtype :=
    max_eq_right (by omega)
  refine ⟨?_, ?_, ?_, ?_⟩
  · simp only [deductStock, if_true, hmax]
  · intro k hk
    simp only [deductStock, hk, if_false]
  · funext k
    by_cases hk : k = invKey product subtype
    · subst hk
      simp only [addStock, deductStock, if_true, hmax]
      omega
    · simp only [addStock, deductStock, hk, if_false]
  · intro k hk
    simp only [addStock, hk, if_false]

/-- Claim C17 (`getUnitsPerEmission` is the documented fallback chain): for every pack
and subtype, and every catalog whose emission definitions have positive unit counts,
`getUnitsPerEmission` returns the value of `documentedUnits`: 1 for a missing pack,
`Unidad` and `Libre` whatever overrides exist, else the conversion override, else the
units of the emission of that name, else the `Caja` heuristic (24, 36, 12), else 1. The
function is total: it is defined on every input. -/
theorem units_follow_documented_chain (c : Catalog) (emission : Option String)
    (subtype : String) (hpos : ∀ e ∈ c.rawEmissions, 0 < e.units) :
    getUnitsPerEmission c emission subtype = documentedUnits c emission subtype := by
  unfold getUnitsPerEmission documentedUnits
  cases emission with
  | none => simp [truthy]
  | some pack =>
    by_cases h0 : pack = ""
    · simp [h0, truthy]
    by_cases h1 : pack = "Unidad"
    · simp [h1, truthy]
    by_cases h2 : pack = "Libre"
    · subst h2
      simp [truthy]
    have htr : truthy (some pack) = true := by simpa [truthy] using h0
    simp only [htr, Bool.not_true, Bool.false_or, beq_iff_eq, Option.some.injEq, h1, h2, h0,
      if_false, or_self, tpl, dbEmissionUnits]
    by_cases hconv : c.conversions (pack ++ "_" ++ subtype) ≠ 0
    · simp only [hconv, if_true, not_false_eq_true, ne_eq]
    · simp only [hconv, if_false]
      cases hf : c.rawEmissions.find? (fun e => e.name == pack) with
      | none => simp [hf]
      | some e =>
        have hne : e.units ≠ 0 := by
          have := hpos e (List.mem_of_find?_eq_some hf)
          omega
        simp [hf, hne]
/-! ## Non-negative stock -/

theorem deductStock_nonneg (c : Catalog) (inventory : Inventory) (beer : String)
    (pack : Option String) (sub : String) (q : Int) (prev : Inventory)
    (h : NonNegative prev) :
    NonNegative (deductStock c inventory beer pack sub q prev) := by
  intro k
  simp only [deductStock]
  split
  · exact le_max_left _ _
  · exact h k

theorem addStock_nonneg (c : Catalog) (inventory : Inventory) (beer : String)
    (pack : Option String) (sub : String) (q : Int) (prev : Inventory)
    (hs : NonNegative inventory) (h : NonNegative prev)
    (hq : 0 ≤ q * getUnitsPerEmission c pack sub) :
    NonNegative (addStock c inventory beer pack sub q prev) := by
  intro k
  simp only [addStock]
  split
  · have := hs (invKey beer sub)
    omega
  · exact h k

theorem foldl_nonneg {α : Type} (f : Inventory → α → Inventory)
    (hf : ∀ inv x, NonNegative inv → NonNegative (f inv x)) (l : List α) (inv : Inventory)
    (h : NonNegative inv) : NonNegative (l.foldl f inv) := by
  induction l generalizing inv with
  | nil => exact h
  | cons x rest ih => exact ih _ (hf inv x h)

theorem restoreSlots_nonneg (c : Catalog) (inventory : Inventory) (sub : String)
    (slots : List (Option String)) (prev : Inventory) (hs : NonNegative inventory)
    (h : NonNegative prev) :
    NonNegative (restoreSlots c inventory sub slots prev) := by
  unfold restoreSlots
  apply foldl_nonneg _ _ _ _ h
  intro acc sl hacc
  split
  · exact addStock_nonneg c inventory _ _ _ _ acc hs hacc (by rw [getUnits_unidad]; omega)
  · exact hacc

theorem deductSlots_nonneg (c : Catalog) (inventory : Inventory) (sub : String)
    (slots : List (Option String)) (prev : Inventory) (h : NonNegative prev) :
    NonNegative (deductSlots c inventory sub slots prev) := by
  unfold deductSlots
  apply foldl_nonneg _ _ _ _ h
  intro acc sl hacc
  split
  · exact deductStock_nonneg c inventory _ _ _ _ acc hacc
  · exact hacc

theorem addItemToOrder_nonneg (c : Catalog) (now : Nat) (s : State) (orderId : String)
    (item : Item) (h : NonNegative s.inventory) :
    NonNegative (addItemToOrder c now s orderId item).inventory := by
  unfold addItemToOrder
  cases hfind : s.orders.find? (fun o => o.id == orderId) with
  | none => exact h
  | some order =>
    dsimp only
    split_ifs <;> first | exact h | exact deductStock_nonneg c _ _ _ _ _ _ h

theorem removeItemFromOrder_nonneg (c : Catalog) (s : State) (orderId itemId : String)
    (h : NonNegative s.inventory) :
    NonNegative (removeItemFromOrder c s orderId itemId).inventory := by
  unfold removeItemFromOrder
  cases hfind : s.orders.find? (fun o => o.id == orderId) with
  | none => exact h
  | some order =>
    dsimp only
    cases hitem : order.items.find? (fun i => i.id == itemId) with
    | none => exact h
    | some item =>
      dsimp only
      split_ifs <;> first | exact h | exact restoreSlots_nonneg c _ _ _ _ h h

theorem cancelOrder_nonneg (c : Catalog) (s : State) (orderId : String)
    (h : NonNegative s.inventory) : NonNegative (cancelOrder c s orderId).inventory := by
  unfold cancelOrder
  cases hfind : s.orders.find? (fun o => o.id == orderId) with
  | none => exact h
  | some order =>
    dsimp only
    split_ifs
    · apply foldl_nonneg _ _ _ _ h
      intro acc item hacc
      exact restoreSlots_nonneg c _ _ _ _ h hacc
    · exact h

theorem closeItemStock_nonneg (c : Catalog) (inventory : Inventory) (type : String)
    (inv : Inventory) (item : Item)
    (h : NonNegative inv) : NonNegative (closeItemStock c inventory type inv item) := by
  unfold closeItemStock
  dsimp only
  split_ifs <;>
    first
    | exact h
    | exact deductSlots_nonneg c _ _ _ _ h
    | exact deductStock_nonneg c _ _ _ _ _ _ h

theorem closeOrder_nonneg (c : Catalog) (now : Nat) (fresh : Nat → String) (s : State)
    (orderId : String) (pm : Option String) (ref : String) (h : NonNegative s.inventory) :
    NonNegative (closeOrder c now fresh s orderId pm ref).inventory := by
  unfold closeOrder
  cases hfind : s.orders.find? (fun o => o.id == orderId) with
  | none => exact h
  | some order =>
    dsimp only
    exact foldl_nonneg _ (fun inv x hinv => closeItemStock_nonneg c _ _ inv x hinv) _ _ h

theorem directSaleItemStock_nonneg (c : Catalog) (inventory : Inventory) (inv : Inventory)
    (item : Item)
    (h : NonNegative inv) : NonNegative (directSaleItemStock c inventory inv item) := by
  unfold directSaleItemStock
  dsimp only
  split_ifs
  · apply foldl_nonneg _ _ _ _ h
    intro acc2 bu hacc2
    exact deductStock_nonneg c _ _ _ _ _ _ hacc2
  · exact deductStock_nonneg c _ _ _ _ _ _ h

theorem processDirectSale_nonneg (c : Catalog) (now ticket : Nat) (user : String)
    (fresh : Nat → String) (s : State) (customerName : String) (items : List Item)
    (pm : Option String) (ref : String) (h : NonNegative s.inventory) :
    NonNegative
      (processDirectSale c now ticket user fresh s customerName items pm ref).2.inventory := by
  unfold processDirectSale
  dsimp only
  exact foldl_nonneg _ (fun inv x hinv => directSaleItemStock_nonneg c _ inv x hinv) _ _ h

theorem updateOrderItemSlot_nonneg (c : Catalog) (s : State) (orderId : String)
    (itemIndex slotIndex : Nat) (content : Option String) (h : NonNegative s.inventory) :
    NonNegative
      (updateOrderItemSlot c s orderId itemIndex slotIndex content).state.inventory := by
  unfold updateOrderItemSlot
  cases hfind : s.orders.find? (fun o => o.id == orderId) with
  | none => exact h
  | some order =>
    dsimp only
    cases hitem : order.items[itemIndex]? with
    | none => exact h
    | some item =>
      dsimp only
      have hadd : ∀ b, NonNegative
          (addStock c s.inventory b (some "Unidad") item.subtype 1 s.inventory) :=
        fun b => addStock_nonneg c _ _ _ _ _ _ h h (by rw [getUnits_unidad]; omega)
      split_ifs <;> cases mapOrders (updateSlotInOrder orderId itemIndex slotIndex content)
          s.orders <;>
        first
        | exact h
        | exact hadd _
        | exact deductStock_nonneg c _ _ _ _ _ _ h
        | exact deductStock_nonneg c _ _ _ _ _ _ (hadd _)

theorem commitInventory_stock (c : Catalog) (inv : Inventory) (pending : List (String × Int))
    (st : Inventory × CommitReport) (hs : NonNegative inv) (h : NonNegative st.1)
    (hp : ∀ kq ∈ pending, 0 ≤ kq.2) :
    NonNegative (pending.foldl (fun st kq =>
      (addStock c inv (splitPendingKey kq.1).1 (some "Unidad") (tpl (splitPendingKey kq.1).2)
          kq.2 st.1,
        ({ movements := st.2.movements ++
              [((splitPendingKey kq.1).1, (splitPendingKey kq.1).2, kq.2)]
           totalUnits := st.2.totalUnits + kq.2 } : CommitReport))) st).1 := by
  induction pending generalizing st with
  | nil => exact h
  | cons kq rest ih =>
    simp only [List.foldl_cons]
    apply ih
    · exact addStock_nonneg c _ _ _ _ _ _ hs h (by
        rw [getUnits_unidad]
        have := hp kq (List.mem_cons_self _ _)
        omega)
    · exact fun x hx => hp x (List.mem_cons_of_mem _ hx)

/-- Claim C15, amended (stock never goes negative): starting from an inventory in which
every count is at least zero, `deductStock` and every operation of the order engine
yield an inventory in which every count is at least zero, and so do `addStock`,
`setBaseStock` and `commitInventory` when the units added, the base stock set and the
pending deltas are at least zero. -/
theorem stock_stays_nonnegative (c : Catalog) (orders : List Order) (inv : Inventory)
    (h : NonNegative inv) :
    (∀ beer pack sub q, NonNegative (deductStock c inv beer pack sub q inv)) ∧
    (∀ beer pack sub q, 0 ≤ q * getUnitsPerEmission c pack sub →
      NonNegative (addStock c inv beer pack sub q inv)) ∧
    (∀ beer sub units, 0 ≤ units → NonNegative (setBaseStock inv beer sub units)) ∧
    (∀ pending : List (String × Int), (∀ kq ∈ pending, 0 ≤ kq.2) →
      NonNegative (commitInventory c inv pending).1) ∧
    (∀ now ticket user customer items type pm ref,
      NonNegative
        (createOrder now ticket user (State.mk orders inv) customer items type pm ref).2.inventory) ∧
    (∀ now orderId item,
      NonNegative (addItemToOrder c now (State.mk orders inv) orderId item).inventory) ∧
    (∀ orderId itemId,
      NonNegative (removeItemFromOrder c (State.mk orders inv) orderId itemId).inventory) ∧
    (∀ orderId, NonNegative (cancelOrder c (State.mk orders inv) orderId).inventory) ∧
    (∀ now fresh orderId pm ref,
      NonNegative (closeOrder c now fresh (State.mk orders inv) orderId pm ref).inventory) ∧
    (∀ now ticket user fresh customer items pm ref,
      NonNegative
        (processDirectSale c now ticket user fresh (State.mk orders inv) customer items pm
          ref).2.inventory) ∧
    (∀ orderId itemIndex slotIndex content,
      NonNegative
        (updateOrderItemSlot c (State.mk orders inv) orderId itemIndex slotIndex
          content).state.inventory) := by
  refine ⟨?_, ?_, ?_, ?_, ?_, ?_, ?_, ?_, ?_, ?_, ?_⟩
  · exact fun beer pack sub q => deductStock_nonneg c inv beer pack sub q inv h
  · exact fun beer pack sub q hq => addStock_nonneg c inv beer pack sub q inv h h hq
  · intro beer sub units hu k
    simp only [setBaseStock]
    split
    · exact hu
    · exact h k
  · intro pending hp
    exact commitInventory_stock c inv pending _ h h hp
  · intro now ticket user customer items type pm ref
    exact h
  · exact fun now orderId item => addItemToOrder_nonneg c now _ orderId item h
  · exact fun orderId itemId => removeItemFromOrder_nonneg c _ orderId itemId h
  · exact fun orderId => cancelOrder_nonneg c _ orderId h
  · exact fun now fresh orderId pm ref => closeOrder_nonneg c now fresh _ orderId pm ref h
  · exact fun now ticket user fresh customer items pm ref =>
      processDirectSale_nonneg c now ticket user fresh _ customer items pm ref h
  · exact fun orderId itemIndex slotIndex content =>
      updateOrderItemSlot_nonneg c _ orderId itemIndex slotIndex content h

theorem smallStock_nonneg : NonNegative smallStock := by
  intro k
  unfold smallStock
  split <;> omega

/-- Claim C15, counterexample: from 3 units of `(Polar, Botella)`, committing a pending
delta of -5, adding -5 units through `addStock`, and setting a base stock of -1 each
leave a negative count. -/
theorem negative_delta_makes_stock_negative :
    (∀ k, 0 ≤ smallStock k) ∧
    (commitInventory dearCajaCatalog smallStock [("Polar_Botella", -5)]).1
      (invKey "Polar" "Botella") = -2 ∧
    addStock dearCajaCatalog smallStock "Polar" (some "Unidad") "Botella" (-5) smallStock
      (invKey "Polar" "Botella") = -2 ∧
    setBaseStock smallStock "Polar" "Botella" (-1) (invKey "Polar" "Botella") = -1 :=
  ⟨smallStock_nonneg, by decide, by decide, by decide⟩

/-- Claim C15, witness of the amended statement at `smallStock` and one open ticket. -/
theorem stock_stays_nonnegative_witness :
    NonNegative
      (deductStock dearCajaCatalog smallStock "Polar" (some "Caja") "Botella" 1 smallStock) ∧
    NonNegative
      (cancelOrder dearCajaCatalog (State.mk [openTicket "t1" "Local" [polarTab 1]] smallStock)
        "t1").inventory :=
  ⟨(stock_stays_nonnegative dearCajaCatalog [openTicket "t1" "Local" [polarTab 1]] smallStock
      smallStock_nonneg).1 "Polar" (some "Caja") "Botella" 1,
   (stock_stays_nonnegative dearCajaCatalog [openTicket "t1" "Local" [polarTab 1]] smallStock
      smallStock_nonneg).2.2.2.2.2.2.2.1 "t1"⟩
/-! ## Order status across operations -/

theorem forall2_map_self (R : Order → Order → Prop) (f : Order → Order)
    (h : ∀ o, R o (f o)) (l : List Order) : List.Forall₂ R l (l.map f) := by
  induction l with
  | nil => exact List.Forall₂.nil
  | cons o rest ih => exact List.Forall₂.cons (h o) ih

theorem forall2_self (R : Order → Order → Prop) (h : ∀ o, R o o) (l : List Order) :
    List.Forall₂ R l l := by
  induction l with
  | nil => exact List.Forall₂.nil
  | cons o rest ih => exact List.Forall₂.cons (h o) ih

theorem forall2_mapOrders (R : Order → Order → Prop) (f : Order → Option Order)
    (h : ∀ o o1, f o = some o1 → R o o1) (l l1 : List Order)
    (hl : mapOrders f l = some l1) : List.Forall₂ R l l1 := by
  induction l generalizing l1 with
  | nil =>
    simp only [mapOrders, Option.some.injEq] at hl
    subst hl
    exact List.Forall₂.nil
  | cons o rest ih =>
    simp only [mapOrders] at hl
    cases hfo : f o with
    | none => simp [hfo] at hl
    | some o1 =>
      simp only [hfo] at hl
      cases hrest : mapOrders f rest with
      | none => simp [hrest] at hl
      | some rest1 =>
        simp only [hrest, Option.some.injEq] at hl
        subst hl
        exact List.Forall₂.cons (h o o1 hfo) (ih rest1 hrest)

theorem updateSlotInOrder_status (orderId : String) (i j : Nat) (x : Option String)
    (o o1 : Order) (h : updateSlotInOrder orderId i j x o = some o1) :
    o1.id = o.id ∧ o1.status = o.status := by
  unfold updateSlotInOrder at h
  split at h
  · simp only [Option.some.injEq] at h; subst h; exact ⟨rfl, rfl⟩
  · split at h
    · simp at h
    · simp only [Option.some.injEq] at h; subst h; exact ⟨rfl, rfl⟩

theorem addItemToOrder_status (c : Catalog) (now : Nat) (s : State) (orderId : String)
    (item : Item) :
    List.Forall₂ (fun o o1 => o1.id = o.id ∧ o1.status = o.status) s.orders
      (addItemToOrder c now s orderId item).orders := by
  unfold addItemToOrder
  cases hfind : s.orders.find? (fun o => o.id == orderId) with
  | none => exact forall2_self _ (fun _ => ⟨rfl, rfl⟩) _
  | some order =>
    dsimp only
    split_ifs <;>
      first
      | exact forall2_self _ (fun _ => ⟨rfl, rfl⟩) _
      | (apply forall2_map_self
         intro o
         split_ifs <;> exact ⟨rfl, rfl⟩)

theorem removeItemFromOrder_status (c : Catalog) (s : State) (orderId itemId : String) :
    List.Forall₂ (fun o o1 => o1.id = o.id ∧ o1.status = o.status) s.orders
      (removeItemFromOrder c s orderId itemId).orders := by
  unfold removeItemFromOrder
  cases hfind : s.orders.find? (fun o => o.id == orderId) with
  | none => exact forall2_self _ (fun _ => ⟨rfl, rfl⟩) _
  | some order =>
    dsimp only
    cases hitem : order.items.find? (fun i => i.id == itemId) with
    | none => exact forall2_self _ (fun _ => ⟨rfl, rfl⟩) _
    | some item =>
      dsimp only
      apply forall2_map_self
      intro o
      split_ifs <;> exact ⟨rfl, rfl⟩

theorem updateOrderItemSlot_status (c : Catalog) (s : State) (orderId : String)
    (itemIndex slotIndex : Nat) (content : Option String) :
    List.Forall₂ (fun o o1 => o1.id = o.id ∧ o1.status = o.status) s.orders
      (updateOrderItemSlot c s orderId itemIndex slotIndex content).state.orders := by
  unfold updateOrderItemSlot
  cases hfind : s.orders.find? (fun o => o.id == orderId) with
  | none => exact forall2_self _ (fun _ => ⟨rfl, rfl⟩) _
  | some order =>
    dsimp only
    cases hitem : order.items[itemIndex]? with
    | none => exact forall2_self _ (fun _ => ⟨rfl, rfl⟩) _
    | some item =>
      dsimp only
      cases hmap : mapOrders (updateSlotInOrder orderId itemIndex slotIndex content)
          s.orders with
      | none =>
        dsimp only
        split_ifs <;> exact forall2_self _ (fun _ => ⟨rfl, rfl⟩) _
      | some orders =>
        dsimp only
        split_ifs <;>
          first
          | exact forall2_self _ (fun _ => ⟨rfl, rfl⟩) _
          | exact forall2_mapOrders _ _
              (updateSlotInOrder_status orderId itemIndex slotIndex content) _ _ hmap

theorem closeOrder_status (c : Catalog) (now : Nat) (fresh : Nat → String) (s : State)
    (orderId : String) (pm : Option String) (ref : String) :
    List.Forall₂ (fun o o1 => o1.id = o.id ∧ (o1.status = o.status ∨ o1.status = "PAID"))
      s.orders (closeOrder c now fresh s orderId pm ref).orders := by
  unfold closeOrder
  cases hfind : s.orders.find? (fun o => o.id == orderId) with
  | none => exact forall2_self _ (fun _ => ⟨rfl, Or.inl rfl⟩) _
  | some order =>
    dsimp only
    apply forall2_map_self
    intro o
    split_ifs
    · exact ⟨rfl, Or.inr rfl⟩
    · exact ⟨rfl, Or.inl rfl⟩

theorem cancelOrder_orders (c : Catalog) (s : State) (orderId : String) :
    (cancelOrder c s orderId).orders = s.orders.filter (fun o => o.id != orderId) := by
  unfold cancelOrder
  cases hfind : s.orders.find? (fun o => o.id == orderId) with
  | none =>
    dsimp only
    symm
    rw [List.filter_eq_self]
    intro o ho
    have := List.find?_eq_none.mp hfind o ho
    simpa using this
  | some order => rfl
/-- Claim C18 (no transition returns to `OPEN`): `createOrder` and `processDirectSale` put
a new order in front of the unchanged order list; `addItemToOrder`,
`removeItemFromOrder`, `updateOrderItemSlot` and `closeOrder` keep the orders position by
position with their ids and never leave an order that was `PAID` with status `OPEN`;
`cancelOrder` keeps exactly the orders with another id, unchanged, so the cancelled id is
no longer present. -/
theorem no_transition_returns_to_open (c : Catalog) (s : State) :
    (∀ now ticket user customer items type pm ref,
      (createOrder now ticket user s customer items type pm ref).2.orders
        = (createOrder now ticket user s customer items type pm ref).1 :: s.orders) ∧
    (∀ now ticket user fresh customer items pm ref,
      (processDirectSale c now ticket user fresh s customer items pm ref).2.orders
        = (processDirectSale c now ticket user fresh s customer items pm ref).1 :: s.orders) ∧
    (∀ now orderId item, NoReopen s.orders (addItemToOrder c now s orderId item).orders) ∧
    (∀ orderId itemId, NoReopen s.orders (removeItemFromOrder c s orderId itemId).orders) ∧
    (∀ orderId itemIndex slotIndex content,
      NoReopen s.orders
        (updateOrderItemSlot c s orderId itemIndex slotIndex content).state.orders) ∧
    (∀ now fresh orderId pm ref,
      NoReopen s.orders (closeOrder c now fresh s orderId pm ref).orders) ∧
    (∀ orderId,
      (cancelOrder c s orderId).orders = s.orders.filter (fun o => o.id != orderId) ∧
      (cancelOrder c s orderId).orders.find? (fun o => o.id == orderId) = none) := by
  have hkeep : ∀ (o o1 : Order), o1.id = o.id ∧ o1.status = o.status →
      o1.id = o.id ∧ (o.status = "PAID" → o1.status ≠ "OPEN") := by
    intro o o1 h
    refine ⟨h.1, fun hp => ?_⟩
    rw [h.2, hp]
    decide
  refine ⟨fun _ _ _ _ _ _ _ _ => rfl, fun _ _ _ _ _ _ _ _ => rfl, ?_, ?_, ?_, ?_, ?_⟩
  · exact fun now orderId item =>
      (addItemToOrder_status c now s orderId item).imp (fun {o o1} h => hkeep o o1 h)
  · exact fun orderId itemId =>
      (removeItemFromOrder_status c s orderId itemId).imp (fun {o o1} h => hkeep o o1 h)
  · exact fun orderId itemIndex slotIndex content =>
      (updateOrderItemSlot_status c s orderId itemIndex slotIndex content).imp
        (fun {o o1} h => hkeep o o1 h)
  · intro now fresh orderId pm ref
    refine (closeOrder_status c now fresh s orderId pm ref).imp ?_
    intro o o1 h
    refine ⟨h.1, fun hp => ?_⟩
    rcases h.2 with h2 | h2
    · rw [h2, hp]; decide
    · rw [h2]; decide
  · intro orderId
    refine ⟨cancelOrder_orders c s orderId, ?_⟩
    rw [cancelOrder_orders, List.find?_eq_none]
    intro o ho
    have := (List.mem_filter.mp ho).2
    simpa using this

/-- Claim C19, amended (`PAID` is retained by every operation but `cancelOrder`):
`createOrder` and `processDirectSale` put a new order in front of the unchanged order
list; `addItemToOrder`, `removeItemFromOrder`, `updateOrderItemSlot` and `closeOrder`
keep the orders position by position with their ids and every order that was `PAID` is
still `PAID`; `cancelOrder` keeps, unchanged, exactly the orders whose id is not the
given one, whatever their status. -/
theorem paid_is_kept_except_by_cancel (c : Catalog) (s : State) :
    (∀ now ticket user customer items type pm ref,
      (createOrder now ticket user s customer items type pm ref).2.orders
        = (createOrder now ticket user s customer items type pm ref).1 :: s.orders) ∧
    (∀ now ticket user fresh customer items pm ref,
      (processDirectSale c now ticket user fresh s customer items pm ref).2.orders
        = (processDirectSale c now ticket user fresh s customer items pm ref).1 :: s.orders) ∧
    (∀ now orderId item, PaidKept s.orders (addItemToOrder c now s orderId item).orders) ∧
    (∀ orderId itemId, PaidKept s.orders (removeItemFromOrder c s orderId itemId).orders) ∧
    (∀ orderId itemIndex slotIndex content,
      PaidKept s.orders
        (updateOrderItemSlot c s orderId itemIndex slotIndex content).state.orders) ∧
    (∀ now fresh orderId pm ref,
      PaidKept s.orders (closeOrder c now fresh s orderId pm ref).orders) ∧
    (∀ orderId,
      (cancelOrder c s orderId).orders = s.orders.filter (fun o => o.id != orderId)) := by
  have hkeep : ∀ (o o1 : Order), o1.id = o.id ∧ o1.status = o.status →
      o1.id = o.id ∧ (o.status = "PAID" → o1.status = "PAID") := by
    intro o o1 h
    exact ⟨h.1, fun hp => by rw [h.2, hp]⟩
  refine ⟨fun _ _ _ _ _ _ _ _ => rfl, fun _ _ _ _ _ _ _ _ => rfl, ?_, ?_, ?_, ?_, ?_⟩
  · exact fun now orderId item =>
      (addItemToOrder_status c now s orderId item).imp (fun {o o1} h => hkeep o o1 h)
  · exact fun orderId itemId =>
      (removeItemFromOrder_status c s orderId itemId).imp (fun {o o1} h => hkeep o o1 h)
  · exact fun orderId itemIndex slotIndex content =>
      (updateOrderItemSlot_status c s orderId itemIndex slotIndex content).imp
        (fun {o o1} h => hkeep o o1 h)
  · intro now fresh orderId pm ref
    refine (closeOrder_status c now fresh s orderId pm ref).imp ?_
    intro o o1 h
    refine ⟨h.1, fun hp => ?_⟩
    rcases h.2 with h2 | h2
    · rw [h2, hp]
    · exact h2
  · exact fun orderId => cancelOrder_orders c s orderId

/-- Claim C19, counterexample: `cancelOrder` on the id of the `PAID` ticket `"p1"` removes
it from the order list. -/
theorem cancel_removes_paid_order :
    archiveState.orders.map (fun o => (o.id, o.status)) = [("p1", "PAID"), ("t1", "OPEN")] ∧
    (cancelOrder dearCajaCatalog archiveState "p1").orders.map (fun o => (o.id, o.status))
      = [("t1", "OPEN")] := by
  decide
/-! ## Witnesses on concrete states -/

/-- Claim C11, witness: with 2 units of `(Polar, Botella)` the `Variado` item asking for
five `Caja` is appended. -/
theorem variado_single_unit_check_witness :
    (1 ≤ tabState.inventory (invKey (beerNameOf variadoPolar) variadoPolar.subtype) ↔
      ((addItemToOrder dearCajaCatalog 1 tabState "t1" variadoPolar).orders.find?
          (fun o => o.id == "t1")).map Order.items
        = some ((openTicket "t1" "Local"
              [plainItem "consumption-1" "Consumo" "Variado" (some "Libre") "Botella" (some 1)
                (some [])]).items ++
            [storedItem 1 variadoPolar
              (if (openTicket "t1" "Local"
                    [plainItem "consumption-1" "Consumo" "Variado" (some "Libre") "Botella"
                      (some 1) (some [])]).type = "Local"
               then some [some (beerNameOf variadoPolar)] else variadoPolar.slots)])) :=
  variado_single_unit_check dearCajaCatalog 1 tabState "t1" variadoPolar
    (openTicket "t1" "Local"
      [plainItem "consumption-1" "Consumo" "Variado" (some "Libre") "Botella" (some 1)
        (some [])])
    (by decide) (by decide)

/-- Claim C12, witness: two `Caja` against 12 units, and a slot write of `Polar Pilsen`
against no stock, both leave the state as it was. -/
theorem insufficient_stock_is_atomic_witness :
    addItemToOrder dearCajaCatalog 1 shopState "t1" twoCajas = shopState ∧
    updateOrderItemSlot polarCatalog localTabState "t1" 0 1 (some "Polar Pilsen")
      = .returned localTabState :=
  ⟨(insufficient_stock_is_atomic dearCajaCatalog shopState "t1").1 1 twoCajas (by decide),
   (insufficient_stock_is_atomic polarCatalog localTabState "t1").2 0 1 "Polar Pilsen"
      (openTicket "t1" "Local" [polarTab 1]) (polarTab 1)
      (by decide) (by decide) (by decide) (by decide) (by decide)⟩

/-- Claim C13, witness: the id `"zz"` is carried by no ticket of `shopState`, and the
ticket `"t1"` has no item with id `"i9"`. -/
theorem not_found_is_noop_witness :
    (addItemToOrder dearCajaCatalog 1 shopState "zz" cajaItem = shopState ∧
      removeItemFromOrder dearCajaCatalog shopState "zz" "i9" = shopState ∧
      cancelOrder dearCajaCatalog shopState "zz" = shopState ∧
      closeOrder dearCajaCatalog 1 noIds shopState "zz" none "" = shopState ∧
      updateOrderItemSlot dearCajaCatalog shopState "zz" 0 0 (some "Polar")
        = .returned shopState) ∧
    removeItemFromOrder dearCajaCatalog shopState "t1" "i9" = shopState :=
  ⟨(not_found_is_noop dearCajaCatalog 1 noIds shopState "zz" "i9" cajaItem 0 0 (some "Polar")
      none "").1 (by decide),
   (not_found_is_noop dearCajaCatalog 1 noIds shopState "t1" "i9" cajaItem 0 0 (some "Polar")
      none "").2 (openTicket "t1" "Local" []) (by decide) (by decide)⟩

/-- Claim C16, witness: two units against a stock of 3. -/
theorem exact_under_precheck_witness :
    deductStock dearCajaCatalog smallStock "Polar" (some "Unidad") "Botella" 2 smallStock
        (invKey "Polar" "Botella")
      = smallStock (invKey "Polar" "Botella")
        - 2 * getUnitsPerEmission dearCajaCatalog (some "Unidad") "Botella" ∧
    addStock dearCajaCatalog
        (deductStock dearCajaCatalog smallStock "Polar" (some "Unidad") "Botella" 2 smallStock)
        "Polar" (some "Unidad") "Botella" 2
        (deductStock dearCajaCatalog smallStock "Polar" (some "Unidad") "Botella" 2 smallStock)
      = smallStock :=
  ⟨(exact_under_precheck dearCajaCatalog smallStock "Polar" (some "Unidad") "Botella" 2
      (by decide)).1,
   (exact_under_precheck dearCajaCatalog smallStock "Polar" (some "Unidad") "Botella" 2
      (by decide)).2.2.1⟩

/-- Claim C17, witness: a catalog with the emission `Six Pack` of 6 units. -/
theorem units_follow_documented_chain_witness :
    getUnitsPerEmission emissionCatalog (some "Six Pack") "Lata"
      = documentedUnits emissionCatalog (some "Six Pack") "Lata" :=
  units_follow_documented_chain emissionCatalog (some "Six Pack") "Lata" (by decide)

/-- Claim C20, witness: a `Variado` item added to a `Local` ticket takes one unit. -/
theorem addItem_success_witness :
    (addItemToOrder dearCajaCatalog 1 tabState "t1" variadoPolar).inventory
        (invKey (beerNameOf variadoPolar) variadoPolar.subtype)
      = tabState.inventory (invKey (beerNameOf variadoPolar) variadoPolar.subtype) - 1 :=
  ((addItem_success dearCajaCatalog 1 tabState "t1" variadoPolar
      (openTicket "t1" "Local"
        [plainItem "consumption-1" "Consumo" "Variado" (some "Libre") "Botella" (some 1)
          (some [])])
      (by decide) (by decide)).2.1 (by decide) (by decide)).1
/-! ## Closing an order -/

theorem find_unique_of_nodup (orders : List Order) (orderId : String) (order : Order)
    (hnodup : (orders.map Order.id).Nodup)
    (hfind : orders.find? (fun o => o.id == orderId) = some order)
    (o : Order) (ho : o ∈ orders) (hid : o.id = orderId) : o = order := by
  induction orders with
  | nil => simp at ho
  | cons a rest ih =>
    simp only [List.map_cons, List.nodup_cons] at hnodup
    by_cases ha : a.id = orderId
    · have hb : (a.id == orderId) = true := by simpa using ha
      simp only [List.find?_cons, hb, Option.some.injEq] at hfind
      subst hfind
      rcases List.mem_cons.mp ho with h | h
      · exact h
      · exfalso
        apply hnodup.1
        rw [ha, ← hid]
        exact List.mem_map_of_mem _ h
    · have hb : (a.id == orderId) = false := by simpa using ha
      simp only [List.find?_cons, hb] at hfind
      rcases List.mem_cons.mp ho with h | h
      · subst h; exact absurd hid ha
      · exact ih hnodup.2 hfind h

/-- Claim C22 (order effect and frame of `closeOrder`): on an order list with distinct
ids and for the id of an existing order, the list keeps its length; at the position of
that order stands an order with status `PAID`, the given payment method and reference,
the items and totals of `calculateOrderTotal(oldItems, type)`, and the same id, ticket
number, customer name, type and creation time; every other position holds the order it
held before. -/
theorem closeOrder_order_effect (c : Catalog) (now : Nat) (fresh : Nat → String) (s : State)
    (orderId : String) (paymentMethod : Option String) (reference : String) (order : Order)
    (hnodup : (s.orders.map Order.id).Nodup)
    (hfind : s.orders.find? (fun o => o.id == orderId) = some order) :
    (closeOrder c now fresh s orderId paymentMethod reference).orders.length = s.orders.length ∧
    ∀ (i : Nat) (o : Order), s.orders[i]? = some o →
      (o.id ≠ orderId →
        (closeOrder c now fresh s orderId paymentMethod reference).orders[i]? = some o) ∧
      (o.id = orderId →
        ∃ o1, (closeOrder c now fresh s orderId paymentMethod reference).orders[i]? = some o1 ∧
          o1.status = "PAID" ∧ o1.paymentMethod = paymentMethod ∧ o1.reference = reference ∧
          o1.items = (calculateOrderTotal c fresh o.items o.type).optimizedItems ∧
          o1.totalAmountUsd = some (calculateOrderTotal c fresh o.items o.type).totalUsd ∧
          o1.totalAmountBs = some (calculateOrderTotal c fresh o.items o.type).totalBs ∧
          o1.id = o.id ∧ o1.ticketNumber = o.ticketNumber ∧
          o1.customerName = o.customerName ∧ o1.type = o.type ∧
          o1.createdAt = o.createdAt) := by
  unfold closeOrder
  simp only [hfind, List.length_map, true_and]
  intro i o hio
  have hmem : o ∈ s.orders := List.getElem?_mem hio
  constructor
  · intro hne
    simp [List.getElem?_map, hio, hne]
  · intro hid
    have heq := find_unique_of_nodup s.orders orderId order hnodup hfind o hmem hid
    subst heq
    refine ⟨paidOrder o now paymentMethod reference
      (calculateOrderTotal c fresh o.items o.type), ?_, rfl, rfl, rfl, rfl, rfl, rfl, rfl, rfl,
      rfl, rfl, rfl⟩
    simp [List.getElem?_map, hio, hid]
/-! ## Pricing and order creation -/

/-- Claim C23 (non-local pricing): for every item list and every type other than `Local`,
`calculateOrderTotal` returns the input list as `optimizedItems`, `totalUsd` equal to the
sum over the items of `toGoUsd` (own unit price times quantity for a `Variado` item with a
composition, standard catalog price of the product name times quantity otherwise) and
`totalBs` equal to the sum of `toGoBs`, an absent or zero quantity counting as 1. -/
theorem nonlocal_pricing (c : Catalog) (fresh : Nat → String) (items : List Item)
    (type : String) (htype : type ≠ "Local") :
    (calculateOrderTotal c fresh items type).optimizedItems = items ∧
    (calculateOrderTotal c fresh items type).totalUsd = (items.map (toGoUsd c)).sum ∧
    (calculateOrderTotal c fresh items type).totalBs = (items.map (toGoBs c)).sum := by
  rw [calculateOrderTotal_toGo c fresh items type htype]
  exact ⟨rfl, rfl, rfl⟩

/-- Claim C24 (open-tab synthesis of `createOrder`): with an empty item list and type
`Local`, the order returned has status `OPEN`, no totals, and exactly one item, named
`Consumo`, with variety `Variado`, emission `Libre`, quantity 1 and empty slots; it is put
at the head of the order list, before the unchanged earlier orders; with a non-empty item
list or another type the items of the order are the input items, one for one. -/
theorem createOrder_open_tab (now ticket : Nat) (user : String) (s : State)
    (customerName : String) (paymentMethod : Option String) (reference : String) :
    (createOrder now ticket user s customerName [] "Local" paymentMethod reference).1.status
      = "OPEN" ∧
    (createOrder now ticket user s customerName [] "Local" paymentMethod
      reference).1.totalAmountUsd = none ∧
    (createOrder now ticket user s customerName [] "Local" paymentMethod
      reference).1.totalAmountBs = none ∧
    (∃ item,
      (createOrder now ticket user s customerName [] "Local" paymentMethod reference).1.items
        = [item] ∧
      item.name = "Consumo" ∧ item.beerVariety = "Variado" ∧ item.emission = some "Libre" ∧
      item.quantity = some 1 ∧ item.slots = some []) ∧
    (createOrder now ticket user s customerName [] "Local" paymentMethod reference).2.orders
      = (createOrder now ticket user s customerName [] "Local" paymentMethod reference).1
        :: s.orders ∧
    (∀ (items : List Item) (type : String), (items ≠ [] ∨ type ≠ "Local") →
      (createOrder now ticket user s customerName items type paymentMethod
        reference).1.items.map itemCore = items.map itemCore) := by
  refine ⟨rfl, rfl, rfl, ⟨consumoItem now, ?_, rfl, rfl, rfl, rfl, rfl⟩, rfl, ?_⟩
  · simp [createOrder]
  · intro items type h
    have hcond : ¬ ((items.map (fun item : Item =>
        ({ item with
            addedAt := some now
            slots := some (if item.beerVariety = "Variado"
              then [some (orElseStr item.baseBeer (orElseStr item.beerType item.name))]
              else []) } : Item))).length = 0 ∧ type = "Local") := by
      rintro ⟨h1, h2⟩
      rcases h with h | h
      · apply h
        simpa using h1
      · exact h h2
    simp only [createOrder, hcond, if_false, List.map_map]
    apply List.map_congr_left
    intro item _
    rfl

theorem countSlots_of_unpopulated (m : List (String × Int)) (item : Item)
    (h : ∀ sl ∈ item.slots.getD [], truthy sl = false) : countSlots m item = m := by
  unfold countSlots
  generalize item.slots.getD [] = slots at h
  induction slots generalizing m with
  | nil => rfl
  | cons a l ih =>
    simp only [List.foldl_cons, h a (List.mem_cons_self _ _), Bool.false_eq_true, if_false]
    exact ih m (fun sl hsl => h sl (List.mem_cons_of_mem _ hsl))

theorem localConsumptionMap_of_unpopulated (items : List Item) (h : NoPopulatedSlot items) :
    localConsumptionMap items = [] := by
  unfold localConsumptionMap
  generalize ([] : List (String × Int)) = m
  induction items generalizing m with
  | nil => rfl
  | cons it l ih =>
    simp only [List.foldl_cons]
    rw [countSlots_of_unpopulated m it (h it (List.mem_cons_self _ _))]
    exact ih (fun x hx => h x (List.mem_cons_of_mem _ hx)) m
/-- Claim C26 (unfilled slots are priced at zero): for a `Local` item list in which no
item has a populated slot, `calculateOrderTotal(items, 'Local')` returns `totalUsd = 0`,
`totalBs = 0` and no line, whatever the quantities, emissions and catalog prices; closing
a `Local` order with such items stores totals of 0 and an empty item list. -/
theorem unfilled_slots_priced_zero (c : Catalog) (fresh : Nat → String) (items : List Item)
    (h : NoPopulatedSlot items) :
    (calculateOrderTotal c fresh items "Local").totalUsd = 0 ∧
    (calculateOrderTotal c fresh items "Local").totalBs = 0 ∧
    (calculateOrderTotal c fresh items "Local").optimizedItems = [] ∧
    (∀ (now : Nat) (s : State) (orderId : String) (pm : Option String) (ref : String)
      (order : Order),
      s.orders.find? (fun o => o.id == orderId) = some order →
      order.type = "Local" → order.items = items →
      ((closeOrder c now fresh s orderId pm ref).orders.find? (fun o => o.id == orderId)).map
          (fun o => (o.status, o.totalAmountUsd, o.totalAmountBs, o.items))
        = some ("PAID", some 0, some 0, [])) := by
  have hcalc : calculateOrderTotal c fresh items "Local"
      = { totalBs := 0, totalUsd := 0, details := [], optimizedItems := [] } := by
    rw [calculateOrderTotal_local, localConsumptionMap_of_unpopulated items h]
    rfl
  refine ⟨by rw [hcalc], by rw [hcalc], by rw [hcalc], ?_⟩
  intro now s orderId pm ref order hfind hlocal hitems
  have hoid := find_id_eq _ _ _ hfind
  unfold closeOrder
  simp only [hfind]
  rw [find_map_keeps_id orderId _ (by intro o; split <;> rfl), hfind]
  simp [hoid, paidOrder, hlocal, hitems, hcalc]
/-! ## Totals of the local path -/

theorem linesUsd_append (l1 l2 : List Item) : linesUsd (l1 ++ l2) = linesUsd l1 + linesUsd l2 := by
  simp [linesUsd]

theorem linesBs_append (l1 l2 : List Item) : linesBs (l1 ++ l2) = linesBs l1 + linesBs l2 := by
  simp [linesBs]

theorem greedyStep_totals (c : Catalog) (fresh : Nat → String) (beerName subtype : String)
    (st : Int × Totals) (cand : Candidate) (hv : ValidCand c beerName subtype cand)
    (h : TotalsMatchLines c st.2) :
    TotalsMatchLines c (greedyStep fresh beerName subtype st cand).2 := by
  obtain ⟨hu, h1, hp, hpos, hb⟩ := hv
  obtain ⟨husd, hbs, hlines⟩ := h
  unfold greedyStep
  dsimp only
  by_cases hge : st.1 ≥ cand.units
  · by_cases hcount : st.1 / cand.units > 0
    · rw [if_pos hge, if_pos hcount]
      refine ⟨?_, ?_, ?_⟩
      · simp only [linesUsd_append, husd]
        simp [linesUsd, optimizedLine, orZero]
      · simp only [linesBs_append, hbs]
        simp [linesBs, optimizedLine, orZero]
      · intro line hl
        rcases List.mem_append.mp hl with hl | hl
        · exact hlines line hl
        · rw [List.mem_singleton] at hl
          subst hl
          refine ⟨?_, ?_, st.1 / cand.units, rfl, by omega⟩
          · show some cand.priceUsd = _
            rw [hp]; rfl
          · show some cand.priceBs = _
            rw [hb]; rfl
    · rw [if_pos hge, if_neg hcount]
      exact ⟨husd, hbs, hlines⟩
  · rw [if_neg hge]
    exact ⟨husd, hbs, hlines⟩

theorem greedy_totals (c : Catalog) (fresh : Nat → String) (beerName subtype : String)
    (cs : List Candidate) (hv : ∀ cand ∈ cs, ValidCand c beerName subtype cand)
    (st : Int × Totals) (h : TotalsMatchLines c st.2) :
    TotalsMatchLines c (cs.foldl (greedyStep fresh beerName subtype) st).2 := by
  induction cs generalizing st with
  | nil => exact h
  | cons cand rest ih =>
    simp only [List.foldl_cons]
    exact ih (fun x hx => hv x (List.mem_cons_of_mem _ hx)) _
      (greedyStep_totals c fresh beerName subtype st cand (hv cand (List.mem_cons_self _ _)) h)

theorem optimizeBucket_totals (c : Catalog) (fresh : Nat → String) (acc : Totals)
    (key : String) (totalUnits : Int) (h : TotalsMatchLines c acc) :
    TotalsMatchLines c (optimizeBucket c fresh acc key totalUnits) := by
  obtain ⟨husd, hbs, hlines⟩ := greedy_totals c fresh (splitKey key).1 (splitKey key).2
    (sortCandidates (candidatesFor c (splitKey key).1 (splitKey key).2))
    (sortCandidates_valid c _ _) (totalUnits, acc) h
  unfold optimizeBucket
  dsimp only
  split_ifs with hrem
  · refine ⟨?_, ?_, ?_⟩
    · simp only [linesUsd_append, husd]
      simp [linesUsd, optimizedLine, orZero]
    · simp only [linesBs_append, hbs]
      simp [linesBs, optimizedLine, orZero]
    · intro line hl
      rcases List.mem_append.mp hl with hl | hl
      · exact hlines line hl
      · rw [List.mem_singleton] at hl
        subst hl
        exact ⟨rfl, rfl, _, rfl, by omega⟩
  · exact ⟨husd, hbs, hlines⟩

theorem buckets_totals (c : Catalog) (fresh : Nat → String) (m : List (String × Int))
    (acc : Totals) (h : TotalsMatchLines c acc) :
    TotalsMatchLines c (m.foldl (fun a kv => optimizeBucket c fresh a kv.1 kv.2) acc) := by
  induction m generalizing acc with
  | nil => exact h
  | cons kv rest ih =>
    simp only [List.foldl_cons]
    exact ih _ (optimizeBucket_totals c fresh acc kv.1 kv.2 h)

/-- Claim C30 (local totals match the emitted lines): for every item list and catalog,
`calculateOrderTotal(items, 'Local')` returns `totalUsd` equal to the sum over its lines
of `quantity * unitPriceUsd` and `totalBs` equal to the sum of `quantity * unitPriceBs`;
the unit prices of each line are the local-rate catalog prices of the line's own name,
emission and subtype, and every line has a quantity of at least 1. -/
theorem local_totals_match_lines (c : Catalog) (fresh : Nat → String) (items : List Item) :
    (calculateOrderTotal c fresh items "Local").totalUsd
      = linesUsd (calculateOrderTotal c fresh items "Local").optimizedItems ∧
    (calculateOrderTotal c fresh items "Local").totalBs
      = linesBs (calculateOrderTotal c fresh items "Local").optimizedItems ∧
    ∀ line ∈ (calculateOrderTotal c fresh items "Local").optimizedItems,
      line.unitPriceUsd = some (getPrice c line.name line.emission line.subtype "local") ∧
      line.unitPriceBs = some (getBsPrice c line.name line.emission line.subtype "local") ∧
      ∃ q, line.quantity = some q ∧ 1 ≤ q := by
  rw [calculateOrderTotal_local]
  exact buckets_totals c fresh _ _ ⟨rfl, rfl, by simp⟩
/-! ## Direct sale against create-then-close -/

theorem createOrder_toGo (now ticket : Nat) (user : String) (s : State)
    (customerName : String) (items : List Item) (pm : Option String) (ref : String) :
    (createOrder now ticket user s customerName items "Llevar" pm ref).1.items
        = items.map (initialItem now) ∧
    (createOrder now ticket user s customerName items "Llevar" pm ref).1.type = "Llevar" ∧
    (createOrder now ticket user s customerName items "Llevar" pm ref).2.inventory
        = s.inventory ∧
    (createOrder now ticket user s customerName items "Llevar" pm ref).2.orders.find?
        (fun o => o.id ==
          (createOrder now ticket user s customerName items "Llevar" pm ref).1.id)
      = some (createOrder now ticket user s customerName items "Llevar" pm ref).1 := by
  have hne : ¬ (("Llevar" : String) = "Local") := by decide
  refine ⟨?_, rfl, rfl, ?_⟩
  · simp only [createOrder, hne, and_false, if_false]
    rfl
  · simp [createOrder, List.find?_cons]

theorem closeItemStock_initial (c : Catalog) (now : Nat) (inventory inv : Inventory)
    (item : Item) (h : item.beerVariety ≠ "Variado") :
    closeItemStock c inventory "Llevar" inv (initialItem now item)
      = directSaleItemStock c inventory inv item := by
  have hb : (("Llevar" : String) == "Local") = false := by decide
  simp [closeItemStock, directSaleItemStock, initialItem, hb, h, beerNameOf]

theorem toGo_initial (c : Catalog) (now : Nat) (item : Item)
    (h : item.beerVariety ≠ "Variado") :
    toGoUsd c (initialItem now item) = toGoUsd c item ∧
    toGoBs c (initialItem now item) = toGoBs c item := by
  simp [toGoUsd, toGoBs, initialItem, h, beerNameOf]

theorem foldl_close_initial (c : Catalog) (now : Nat) (inventory : Inventory)
    (items : List Item)
    (h : ∀ item ∈ items, item.beerVariety ≠ "Variado") (inv : Inventory) :
    (items.map (initialItem now)).foldl (closeItemStock c inventory "Llevar") inv
      = items.foldl (directSaleItemStock c inventory) inv := by
  induction items generalizing inv with
  | nil => rfl
  | cons it l ih =>
    simp only [List.map_cons, List.foldl_cons]
    rw [closeItemStock_initial c now inventory inv it (h it (List.mem_cons_self _ _))]
    exact ih (fun x hx => h x (List.mem_cons_of_mem _ hx)) _

theorem sums_initial (c : Catalog) (now : Nat) (items : List Item)
    (h : ∀ item ∈ items, item.beerVariety ≠ "Variado") :
    ((items.map (initialItem now)).map (toGoUsd c)).sum = (items.map (toGoUsd c)).sum ∧
    ((items.map (initialItem now)).map (toGoBs c)).sum = (items.map (toGoBs c)).sum := by
  induction items with
  | nil => exact ⟨rfl, rfl⟩
  | cons it l ih =>
    obtain ⟨h1, h2⟩ := ih (fun x hx => h x (List.mem_cons_of_mem _ hx))
    obtain ⟨e1, e2⟩ := toGo_initial c now it (h it (List.mem_cons_self _ _))
    simp only [List.map_cons, List.sum_cons, h1, h2, e1, e2, and_self]

/-- Claim C29 (direct sale agrees with create-then-close): for every state and every item
list with no `Variado` item, `processDirectSale(customer, items, pm, ref)` leaves the same
inventory, and stores the same `totalAmountUsd` and `totalAmountBs`, as
`createOrder(customer, items, 'Llevar')` followed by `closeOrder` on the new order. -/
theorem direct_sale_agrees_with_create_then_close (c : Catalog) (now now2 ticket : Nat)
    (user : String) (fresh fresh2 : Nat → String) (s : State) (customerName : String)
    (items : List Item) (pm pm2 : Option String) (ref ref2 : String)
    (h : ∀ item ∈ items, item.beerVariety ≠ "Variado") :
    (processDirectSale c now ticket user fresh s customerName items pm ref).2.inventory
      = (closeOrder c now2 fresh2
          (createOrder now ticket user s customerName items "Llevar" pm ref).2
          (createOrder now ticket user s customerName items "Llevar" pm ref).1.id
          pm2 ref2).inventory ∧
    ((closeOrder c now2 fresh2
          (createOrder now ticket user s customerName items "Llevar" pm ref).2
          (createOrder now ticket user s customerName items "Llevar" pm ref).1.id
          pm2 ref2).orders.find?
        (fun o => o.id ==
          (createOrder now ticket user s customerName items "Llevar" pm ref).1.id)).map
        (fun o => (o.totalAmountUsd, o.totalAmountBs))
      = some
        ((processDirectSale c now ticket user fresh s customerName items pm ref).1.totalAmountUsd,
         (processDirectSale c now ticket user fresh s customerName items pm
            ref).1.totalAmountBs) := by
  obtain ⟨hitems, htype, hinv, hfind⟩ := createOrder_toGo now ticket user s customerName items pm ref
  have hne : ("Llevar" : String) ≠ "Local" := by decide
  have hne2 : ("Para Llevar" : String) ≠ "Local" := by decide
  obtain ⟨hs1, hs2⟩ := sums_initial c now items h
  constructor
  · unfold closeOrder
    simp only [hfind, hitems, htype, hinv, foldl_close_initial c now s.inventory items h]
    rfl
  · unfold closeOrder
    simp only [hfind]
    rw [find_map_keeps_id _ _ (by intro o; split <;> rfl), hfind]
    simp only [Option.map_some', if_true, paidOrder, hitems, htype,
      calculateOrderTotal_toGo c fresh2 _ _ hne, processDirectSale,
      calculateOrderTotal_toGo c fresh items _ hne2, hs1, hs2]
/-! ## Consumption keys -/

theorem takeWhile_append_stop {α : Type} (p : α → Bool) (l r : List α) (x : α)
    (hl : ∀ a ∈ l, p a = true) (hx : p x = false) :
    (l ++ x :: r).takeWhile p = l ∧ (l ++ x :: r).dropWhile p = x :: r := by
  induction l with
  | nil => simp [List.takeWhile, List.dropWhile, hx]
  | cons a l ih =>
    have ha := hl a (List.mem_cons_self _ _)
    obtain ⟨h1, h2⟩ := ih (fun b hb => hl b (List.mem_cons_of_mem _ hb))
    simp [List.takeWhile, List.dropWhile, ha, h1, h2]

theorem splitKey_roundtrip (product subtype : String) (h : '_' ∉ subtype.data) :
    splitKey (product ++ "_" ++ subtype) = (product, subtype) := by
  have hdata : (product ++ "_" ++ subtype).data.reverse
      = subtype.data.reverse ++ '_' :: product.data.reverse := by
    simp [String.data_append]
  have hall : ∀ a ∈ subtype.data.reverse, (a != '_') = true := by
    intro a ha
    have : a ∈ subtype.data := List.mem_reverse.mp ha
    simp only [bne_iff_ne, ne_eq]
    intro he
    exact h (he ▸ this)
  obtain ⟨h1, h2⟩ := takeWhile_append_stop (fun ch : Char => ch != '_') subtype.data.reverse
    product.data.reverse '_' hall (by simp)
  unfold splitKey
  simp only [hdata, h1, h2, List.drop_succ_cons, List.drop_zero, List.reverse_reverse]
theorem bump_keys (Q : String → Prop) (m : List (String × Int)) (key : String)
    (hm : ∀ kv ∈ m, Q kv.1) (hkey : Q key) : ∀ kv ∈ bump m key, Q kv.1 := by
  induction m with
  | nil =>
    intro kv hkv
    simp only [bump, List.mem_singleton] at hkv
    subst hkv
    exact hkey
  | cons a rest ih =>
    obtain ⟨k, v⟩ := a
    have hk : Q k := hm (k, v) (List.mem_cons_self _ _)
    have hrest : ∀ kv ∈ rest, Q kv.1 := fun kv hkv => hm kv (List.mem_cons_of_mem _ hkv)
    unfold bump
    split
    · intro kv hkv
      rcases List.mem_cons.mp hkv with h | h
      · subst h; exact hk
      · exact hrest kv h
    · intro kv hkv
      rcases List.mem_cons.mp hkv with h | h
      · subst h; exact hk
      · exact ih hrest kv h

theorem countSlots_keys (Q : String → Prop) (item : Item) (m : List (String × Int))
    (hm : ∀ kv ∈ m, Q kv.1)
    (hitem : ∀ sl ∈ item.slots.getD [], truthy sl = true → Q (tpl sl ++ "_" ++ item.subtype)) :
    ∀ kv ∈ countSlots m item, Q kv.1 := by
  unfold countSlots
  generalize item.slots.getD [] = slots at hitem
  induction slots generalizing m with
  | nil => exact hm
  | cons a l ih =>
    simp only [List.foldl_cons]
    apply ih
    · split
      · rename_i ha
        exact bump_keys Q m _ hm (hitem a (List.mem_cons_self _ _) ha)
      · exact hm
    · exact fun sl hsl => hitem sl (List.mem_cons_of_mem _ hsl)

theorem foldl_countSlots_keys (Q : String → Prop) (l : List Item) (m : List (String × Int))
    (hm : ∀ kv ∈ m, Q kv.1)
    (hl : ∀ item ∈ l, ∀ sl ∈ item.slots.getD [], truthy sl = true →
      Q (tpl sl ++ "_" ++ item.subtype)) :
    ∀ kv ∈ l.foldl countSlots m, Q kv.1 := by
  induction l generalizing m with
  | nil => exact hm
  | cons it rest ih =>
    simp only [List.foldl_cons]
    exact ih _ (countSlots_keys Q it m hm (hl it (List.mem_cons_self _ _)))
      (fun x hx => hl x (List.mem_cons_of_mem _ hx))

theorem greedy_lines (P : Item → Prop) (fresh : Nat → String) (beerName subtype : String)
    (hnew : ∀ id em q pb pu, P (optimizedLine id beerName subtype em q pb pu))
    (cs : List Candidate) (st : Int × Totals) (h : ∀ l ∈ st.2.optimizedItems, P l) :
    ∀ l ∈ (cs.foldl (greedyStep fresh beerName subtype) st).2.optimizedItems, P l := by
  induction cs generalizing st with
  | nil => exact h
  | cons cand rest ih =>
    simp only [List.foldl_cons]
    apply ih
    unfold greedyStep
    dsimp only
    by_cases hge : st.1 ≥ cand.units
    · by_cases hcount : st.1 / cand.units > 0
      · rw [if_pos hge, if_pos hcount]
        intro l hl
        rcases List.mem_append.mp hl with hl | hl
        · exact h l hl
        · rw [List.mem_singleton] at hl
          subst hl
          exact hnew _ _ _ _ _
      · rw [if_pos hge, if_neg hcount]
        exact h
    · rw [if_neg hge]
      exact h

theorem optimizeBucket_lines (P : Item → Prop) (c : Catalog) (fresh : Nat → String)
    (acc : Totals) (key : String) (totalUnits : Int)
    (hnew : ∀ id em q pb pu, P (optimizedLine id (splitKey key).1 (splitKey key).2 em q pb pu))
    (h : ∀ l ∈ acc.optimizedItems, P l) :
    ∀ l ∈ (optimizeBucket c fresh acc key totalUnits).optimizedItems, P l := by
  have hg := greedy_lines P fresh (splitKey key).1 (splitKey key).2 hnew
    (sortCandidates (candidatesFor c (splitKey key).1 (splitKey key).2)) (totalUnits, acc) h
  unfold optimizeBucket
  dsimp only
  split_ifs
  · intro l hl
    rcases List.mem_append.mp hl with hl | hl
    · exact hg l hl
    · rw [List.mem_singleton] at hl
      subst hl
      exact hnew _ _ _ _ _
  · exact hg

theorem buckets_lines (P : Item → Prop) (c : Catalog) (fresh : Nat → String)
    (m : List (String × Int)) (acc : Totals)
    (hnew : ∀ kv ∈ m, ∀ id em q pb pu,
      P (optimizedLine id (splitKey kv.1).1 (splitKey kv.1).2 em q pb pu))
    (h : ∀ l ∈ acc.optimizedItems, P l) :
    ∀ l ∈ (m.foldl (fun a kv => optimizeBucket c fresh a kv.1 kv.2) acc).optimizedItems,
      P l := by
  induction m generalizing acc with
  | nil => exact h
  | cons kv rest ih =>
    simp only [List.foldl_cons]
    exact ih _ (fun x hx => hnew x (List.mem_cons_of_mem _ hx))
      (optimizeBucket_lines P c fresh acc kv.1 kv.2 (hnew kv (List.mem_cons_self _ _)) h)

/-- Claim C28 (consumption-key round trip): for every product name and every subtype
without an underscore, splitting the key `product_subtype` at its last underscore gives
back `(product, subtype)`; hence two such pairs with the same key are equal, and when no
item's subtype has an underscore every line of `calculateOrderTotal(items, 'Local')`
carries the product name of a populated slot and the subtype of the item holding it. -/
theorem consumption_key_roundtrip (c : Catalog) (fresh : Nat → String) (items : List Item) :
    (∀ product subtype : String, '_' ∉ subtype.data →
      splitKey (product ++ "_" ++ subtype) = (product, subtype)) ∧
    (∀ p1 s1 p2 s2 : String, '_' ∉ s1.data → '_' ∉ s2.data →
      p1 ++ "_" ++ s1 = p2 ++ "_" ++ s2 → p1 = p2 ∧ s1 = s2) ∧
    ((∀ item ∈ items, '_' ∉ item.subtype.data) →
      ∀ line ∈ (calculateOrderTotal c fresh items "Local").optimizedItems,
        FromSlot items line) := by
  refine ⟨splitKey_roundtrip, ?_, ?_⟩
  · intro p1 s1 p2 s2 h1 h2 heq
    have e1 := splitKey_roundtrip p1 s1 h1
    have e2 := splitKey_roundtrip p2 s2 h2
    rw [heq, e2] at e1
    simp only [Prod.mk.injEq] at e1
    exact ⟨e1.1.symm, e1.2.symm⟩
  · intro hsub
    rw [calculateOrderTotal_local]
    apply buckets_lines (FromSlot items) c fresh _ _ _ (by simp)
    have hkeys := foldl_countSlots_keys
      (fun key => ∃ item ∈ items, ∃ sl ∈ item.slots.getD [],
        truthy sl = true ∧ splitKey key = (tpl sl, item.subtype))
      items [] (by simp)
      (fun item hi sl hsl ht =>
        ⟨item, hi, sl, hsl, ht, splitKey_roundtrip (tpl sl) item.subtype (hsub item hi)⟩)
    intro kv hkv id em q pb pu
    obtain ⟨item, hi, sl, hsl, ht, hk⟩ := hkeys kv hkv
    refine ⟨item, hi, sl, hsl, ht, ?_, ?_⟩
    · show (splitKey kv.1).1 = tpl sl
      rw [hk]
    · show (splitKey kv.1).2 = item.subtype
      rw [hk]
/-! ## When a slot update returns -/

theorem mapOrders_isSome (f : Order → Option Order) (l : List Order)
    (h : ∀ o ∈ l, ∃ o1, f o = some o1) : ∃ l1, mapOrders f l = some l1 := by
  induction l with
  | nil => exact ⟨[], rfl⟩
  | cons o rest ih =>
    obtain ⟨o1, ho1⟩ := h o (List.mem_cons_self _ _)
    obtain ⟨rest1, hrest1⟩ := ih (fun x hx => h x (List.mem_cons_of_mem _ hx))
    exact ⟨o1 :: rest1, by simp [mapOrders, ho1, hrest1]⟩

theorem updateOrderItemSlot_returns (c : Catalog) (s : State) (orderId : String)
    (itemIndex slotIndex : Nat) (content : Option String) (order : Order) (item : Item)
    (hfind : s.orders.find? (fun o => o.id == orderId) = some order)
    (hitem : order.items[itemIndex]? = some item)
    (hnodup : (s.orders.map Order.id).Nodup) :
    (updateOrderItemSlot c s orderId itemIndex slotIndex content).isReturned = true := by
  obtain ⟨l1, hl1⟩ := mapOrders_isSome
    (updateSlotInOrder orderId itemIndex slotIndex content) s.orders (by
      intro o ho
      unfold updateSlotInOrder
      by_cases hid : o.id = orderId
      · have heq := find_unique_of_nodup s.orders orderId order hnodup hfind o ho hid
        subst heq
        rw [if_neg (by simp [hid])]
        simp only [hitem]
        exact ⟨_, rfl⟩
      · rw [if_pos hid]
        exact ⟨_, rfl⟩)
  unfold updateOrderItemSlot
  simp only [hfind, hitem, hl1]
  split <;> rfl

/-! ## Slot write -/

theorem writeSlot_other (slots : List (Option String)) (j k : Nat) (x : Option String)
    (hk : k ≠ j) (hlt : k < slots.length) : (writeSlot slots j x)[k]? = slots[k]? := by
  unfold writeSlot
  split
  · rw [List.getElem?_set_ne (Ne.symm hk)]
  · rw [List.append_assoc, List.getElem?_append_left hlt]

/-- Claim C25 (slot write and compaction): for an existing order and item and a call of
`updateOrderItemSlot` that is not aborted, the call returns when the order ids are
distinct, and whenever it returns the item at that index has, for a `Libre` item, the old
slots with position `slotIndex` set to the new content and then every `null` entry
removed, so that no `null` is left; and for any other item the old slots with position
`slotIndex` set to the new content, every other position of the old list keeping its
entry, `null` placeholders included. -/
theorem slot_write_and_compaction (c : Catalog) (s : State) (orderId : String)
    (itemIndex slotIndex : Nat) (content : Option String) (order : Order) (item : Item)
    (hfind : s.orders.find? (fun o => o.id == orderId) = some order)
    (hitem : order.items[itemIndex]? = some item)
    (happlied : ¬ (order.type = "Local" ∧ truthy content = true ∧
      (!checkStock c s.inventory (tpl content) (some "Unidad") item.subtype 1) = true)) :
    ((s.orders.map Order.id).Nodup →
      (updateOrderItemSlot c s orderId itemIndex slotIndex content).isReturned = true) ∧
    (∀ s1, updateOrderItemSlot c s orderId itemIndex slotIndex content = .returned s1 →
      ∃ order1 item1,
        s1.orders.find? (fun o => o.id == orderId) = some order1 ∧
        order1.items[itemIndex]? = some item1 ∧
        (item.emission = some "Libre" →
          item1.slots = some ((writeSlot (item.slots.getD []) slotIndex content).filter
            (fun sl => sl.isSome)) ∧
          none ∉ item1.slots.getD []) ∧
        (item.emission ≠ some "Libre" →
          item1.slots = some (writeSlot (item.slots.getD []) slotIndex content)) ∧
        (writeSlot (item.slots.getD []) slotIndex content)[slotIndex]? = some content ∧
        (∀ k, k ≠ slotIndex → k < (item.slots.getD []).length →
          (writeSlot (item.slots.getD []) slotIndex content)[k]?
            = (item.slots.getD [])[k]?)) := by
  refine ⟨updateOrderItemSlot_returns c s orderId itemIndex slotIndex content order item
    hfind hitem, ?_⟩
  intro s1 h1
  unfold updateOrderItemSlot at h1
  simp only [hfind, hitem] at h1
  rw [if_neg happlied] at h1
  cases hmap : mapOrders (updateSlotInOrder orderId itemIndex slotIndex content) s.orders with
  | none => simp [hmap] at h1
  | some orders =>
    simp only [hmap, Outcome.returned.injEq] at h1
    obtain ⟨order1, hf1, hfind1⟩ := mapOrders_find orderId _
      (fun o o1 h => (updateSlotInOrder_id orderId itemIndex slotIndex content o o1 h).1)
      s.orders orders hmap order hfind
    have hoid := find_id_eq _ _ _ hfind
    have hlt : itemIndex < order.items.length := by
      rcases Nat.lt_or_ge itemIndex order.items.length with h | h
      · exact h
      · rw [List.getElem?_eq_none h] at hitem; simp at hitem
    have hitem1 : order1.items[itemIndex]?
        = some { item with slots := some (finalSlots item slotIndex content) } := by
      unfold updateSlotInOrder at hf1
      rw [if_neg (by simp [hoid])] at hf1
      simp only [hitem, Option.some.injEq] at hf1
      subst hf1
      simp [List.getElem?_set, hlt]
    subst h1
    refine ⟨order1, _, hfind1, hitem1, ?_, ?_, writeSlot_get _ _ _, ?_⟩
    · intro hl
      simp only [finalSlots, hl, if_true, Option.getD_some, true_and]
      intro hmem
      have := (List.mem_filter.mp hmem).2
      simp at this
    · intro hl
      simp only [finalSlots, hl, if_false]
    · exact fun k hk hlt => writeSlot_other _ _ _ _ hk hlt

/-! ## Witnesses for closing, pricing and slot claims -/

/-- Claim C22, witness: closing the only ticket of `toGoState`. -/
theorem closeOrder_order_effect_witness :
    (closeOrder polarCatalog 1 noIds toGoState "t2" (some "Efectivo") "r1").orders.length
      = toGoState.orders.length ∧
    ∃ o1, (closeOrder polarCatalog 1 noIds toGoState "t2" (some "Efectivo") "r1").orders[0]?
        = some o1 ∧
      o1.status = "PAID" ∧ o1.paymentMethod = some "Efectivo" ∧ o1.reference = "r1" :=
  ⟨(closeOrder_order_effect polarCatalog 1 noIds toGoState "t2" (some "Efectivo") "r1"
      (openTicket "t2" "Llevar" [cajaItem]) (by decide) (by decide)).1,
   by
    obtain ⟨o1, h0, h1, h2, h3, _⟩ :=
      ((closeOrder_order_effect polarCatalog 1 noIds toGoState "t2" (some "Efectivo") "r1"
        (openTicket "t2" "Llevar" [cajaItem]) (by decide) (by decide)).2 0
        (openTicket "t2" "Llevar" [cajaItem]) (by decide)).2 (by decide)
    exact ⟨o1, h0, h1, h2, h3⟩⟩

/-- Claim C23, witness: one `Caja` priced as a take-away sale. -/
theorem nonlocal_pricing_witness :
    (calculateOrderTotal polarCatalog noIds [cajaItem] "Llevar").optimizedItems = [cajaItem] ∧
    (calculateOrderTotal polarCatalog noIds [cajaItem] "Llevar").totalUsd
      = ([cajaItem].map (toGoUsd polarCatalog)).sum ∧
    (calculateOrderTotal polarCatalog noIds [cajaItem] "Llevar").totalBs
      = ([cajaItem].map (toGoBs polarCatalog)).sum :=
  nonlocal_pricing polarCatalog noIds [cajaItem] "Llevar" (by decide)

/-- Claim C25, witness: writing `Polar` at slot index 2 of a `Caja` item with one filled
slot returns and leaves a `null` placeholder at index 1. -/
theorem slot_write_and_compaction_witness :
    (updateOrderItemSlot polarCatalog crateState "t1" 0 2 (some "Polar")).isReturned = true ∧
    ∃ order1 item1,
      (updateOrderItemSlot polarCatalog crateState "t1" 0 2 (some "Polar")).state.orders.find?
          (fun o => o.id == "t1") = some order1 ∧
      order1.items[0]? = some item1 ∧
      item1.slots = some [some "Polar", none, some "Polar"] := by
  have h := slot_write_and_compaction polarCatalog crateState "t1" 0 2 (some "Polar")
      (openTicket "t1" "Local"
        [plainItem "i1" "Polar" "Normal" (some "Caja") "Botella" (some 1) (some [some "Polar"])])
      (plainItem "i1" "Polar" "Normal" (some "Caja") "Botella" (some 1) (some [some "Polar"]))
      (by decide) (by decide) (by decide)
  have hret := h.1 (by decide)
  obtain ⟨order1, item1, hf, hi, _, hN, _, _⟩ := h.2 _ (returned_of_isReturned _ hret)
  exact ⟨hret, order1, item1, hf, hi, by rw [hN (by decide)]; decide⟩

/-- Claim C26, witness: a `Caja` just added to a `Local` order, with no slot filled. -/
theorem unfilled_slots_priced_zero_witness :
    (calculateOrderTotal polarCatalog noIds [storedItem 1 cajaItem (some [])] "Local").totalUsd
      = 0 ∧
    (calculateOrderTotal polarCatalog noIds [storedItem 1 cajaItem (some [])] "Local").totalBs
      = 0 ∧
    (calculateOrderTotal polarCatalog noIds [storedItem 1 cajaItem (some [])]
      "Local").optimizedItems = [] :=
  ⟨(unfilled_slots_priced_zero polarCatalog noIds [storedItem 1 cajaItem (some [])]
      (by unfold NoPopulatedSlot; decide)).1,
   (unfilled_slots_priced_zero polarCatalog noIds [storedItem 1 cajaItem (some [])]
      (by unfold NoPopulatedSlot; decide)).2.1,
   (unfilled_slots_priced_zero polarCatalog noIds [storedItem 1 cajaItem (some [])]
      (by unfold NoPopulatedSlot; decide)).2.2.1⟩

/-- Claim C29, witness: one `Caja` sold directly, against the same item put on a take-away
ticket and closed. -/
theorem direct_sale_agrees_with_create_then_close_witness :
    (processDirectSale polarCatalog 7 1000 "Ana" noIds toGoState "Luis" [cajaItem] none
        "").2.inventory
      = (closeOrder polarCatalog 8 noIds
          (createOrder 7 1000 "Ana" toGoState "Luis" [cajaItem] "Llevar" none "").2
          (createOrder 7 1000 "Ana" toGoState "Luis" [cajaItem] "Llevar" none "").1.id
          none "").inventory :=
  (direct_sale_agrees_with_create_then_close polarCatalog 7 8 1000 "Ana" noIds noIds toGoState
    "Luis" [cajaItem] none none "" "" (by decide)).1

end LicorApp
